import Mathlib

/-!
# Verification of the warehouse relocation engine (`TrayManagement.py`)

Shallow embedding of the relocation engine of `src/TrayManagement.py`.

Modelling conventions, mirrored from the source:
* The warehouse is an `floors × slots` boolean occupancy matrix (`floors = 8`,
  `slots = 18`).  For the transactional claims we model it as a total function
  `Grid : Nat → Nat → Bool`; every access performed by the embedded code paths
  is at an in-bounds coordinate (the theorems carry the in-bounds hypotheses of
  the request), where the function model and the Python list-of-lists coincide.
  A separate list-of-lists model with exact Python indexing semantics
  (`pyIndex`, including negative-index wrap-around and `IndexError` as `none`)
  is used for the bounds-checking claim about the grid store.
* Coordinates stored in `blocking` / `empty` lists are 1-based pairs
  `(floor, slot)` exactly as in the source; moves are recorded as pairs of
  0-based coordinates, again as in the source.
* Python `sorted` on lists of distinct pairs is lexicographic; `sortCoords` is
  a stable insertion sort by the same order, and `sorted(·, reverse := True)`
  of a list is its ascending sort reversed (identical as a value list).
* Times are Python floats; every constant in the program (`15.0`, `100.0`,
  `10.0`, `1.0`, `4.0`) and every quantity formed from them is an integer of
  small magnitude, for which float arithmetic is exact, so costs are modelled
  in `ℤ`.
* The Optuna study (`optuna.create_study`/`study.optimize`) is an external
  randomized black-box search; its only interaction with the program is the
  list of parameter values `trial.params["slot_i"]` of the best trial, each an
  integer in `[0, len(candidates) - 1]` produced by `suggest_int`.  We model
  that outcome as an explicit oracle argument `List Nat`; all other code is
  embedded exactly.
* The `input()` confirmation gate is modelled by a boolean `cancel` argument;
  tkinter rendering (`update_grid`, button colouring, `root.after`) and JSON
  persistence (`save_warehouse`) have no effect on the occupancy state and are
  omitted.
-/

/-- Number of floors (`floors = 8` in the source). -/
def floors : Nat := 8

/-- Number of slots per floor (`slots = 18` in the source). -/
def slots : Nat := 18

/-- The occupancy grid, as a total function on 0-based coordinates. -/
abbrev Grid := Nat → Nat → Bool

/-- A coordinate pair.  The source uses 1-based pairs in `blocking`/`empty`
lists and 0-based pairs inside recorded moves; both are `Nat × Nat` here. -/
abbrev Coord := Nat × Nat

/-- A recorded move `(origin, destination)` in 0-based coordinates, exactly as
the source appends to `moves`. -/
abbrev Move := Coord × Coord

/-- Write one cell of the grid. -/
def setCell (g : Grid) (f s : Nat) (v : Bool) : Grid :=
  fun f' s' => if f' = f ∧ s' = s then v else g f' s'

/-- `animate_move` (lines 154-172): the unconditional occupancy update
`warehouse[dst] := warehouse[src]; warehouse[src] := False`.  The UI calls have
no effect on the occupancy state. -/
def animate_move (g : Grid) (m : Move) : Grid :=
  setCell (setCell g m.2.1 m.2.2 (g m.1.1 m.1.2)) m.1.1 m.1.2 false

/-- Apply a list of moves in order. -/
def applyMoves (g : Grid) (ms : List Move) : Grid :=
  ms.foldl animate_move g

/-- `moveinside` (lines 123-133): a guarded intra-floor move; it only mutates
when the source slot is occupied and the target slot is free. -/
def moveinside (g : Grid) (f src dst : Nat) : Grid :=
  if g f src = true ∧ g f dst = false then animate_move g ((f, src), (f, dst)) else g

/-- A move is valid on `g` when both endpoints are in bounds, its origin is
occupied and its destination free — the precondition `animate_move` assumes
(spec §4.7) and `moveinside` checks. -/
def Valid (g : Grid) (m : Move) : Prop :=
  m.1.1 < floors ∧ m.1.2 < slots ∧ m.2.1 < floors ∧ m.2.2 < slots ∧
    g m.1.1 m.1.2 = true ∧ g m.2.1 m.2.2 = false

/-- Every move of the list is valid on the grid at its application time. -/
inductive ValidSeq : Grid → List Move → Prop
  | nil (g : Grid) : ValidSeq g []
  | cons {g : Grid} {m : Move} {ms : List Move} :
      Valid g m → ValidSeq (animate_move g m) ms → ValidSeq g (m :: ms)

/-- The restoration sequence (lines 264-266): the recorded moves in reverse
order with origin and destination swapped. -/
def revSwap (ms : List Move) : List Move :=
  ms.reverse.map (fun m => (m.2, m.1))

/-- The occupied in-bounds cells of a grid. -/
def occupiedCells (g : Grid) : Finset (Nat × Nat) :=
  (Finset.range floors ×ˢ Finset.range slots).filter (fun c => g c.1 c.2 = true)

/-- Total number of occupied cells. -/
def occupiedCount (g : Grid) : Nat :=
  (occupiedCells g).card

/-- Distance between two naturals (`abs(a - b)` on Python ints). -/
def natDist (a b : Nat) : Nat := max a b - min a b

/-- Lexicographic order on coordinate pairs: Python tuple comparison. -/
def coordLe (a b : Coord) : Prop :=
  a.1 < b.1 ∨ (a.1 = b.1 ∧ a.2 ≤ b.2)

instance : DecidableRel coordLe := fun a b => by
  unfold coordLe; infer_instance

instance : IsTotal Coord coordLe :=
  ⟨by intro a b; unfold coordLe; omega⟩

instance : IsTrans Coord coordLe :=
  ⟨by intro a b c; unfold coordLe; omega⟩

instance : IsAntisymm Coord coordLe := by
  refine ⟨fun a b h h' => ?_⟩
  unfold coordLe at h h'
  have h1 : a.1 = b.1 ∧ a.2 = b.2 := by omega
  exact Prod.ext h1.1 h1.2

/-- Python `sorted` on a list of coordinate pairs (ascending, lexicographic;
stable, which coincides with any sort on lists of distinct pairs). -/
def sortCoords (l : List Coord) : List Coord :=
  List.insertionSort coordLe l

/-- Python `sorted(·, reverse=True)`: as a value list this is the reverse of
the ascending sort. -/
def sortCoordsDesc (l : List Coord) : List Coord :=
  (sortCoords l).reverse

/-- `check_blocking_infloor` (lines 30-36): the occupied slots strictly left of
`slot` on `floor` (0-based arguments), reported as 1-based pairs. -/
def check_blocking_infloor (g : Grid) (floor slot : Nat) : List Coord :=
  (List.range slot).filterMap
    (fun s => if g floor s = true then some (floor + 1, s + 1) else none)

/-- One floor's scan for free slots in ascending slot order (the inner loops of
both strategies of `find_empty_slots_other_floors`), as 1-based pairs. -/
def floorScan (g : Grid) (f : Nat) : List Coord :=
  (List.range slots).filterMap
    (fun s => if g f s = true then none else some (f + 1, s + 1))

/-- The floor visiting order of the normal strategy (lines 48-53):
`range(floors)` with `current_floor` removed, stably sorted by absolute
distance from `current_floor`. -/
def floorOrder (current_floor : Nat) : List Nat :=
  List.insertionSort (fun a b => natDist a current_floor ≤ natDist b current_floor)
    ((List.range floors).erase current_floor)

/-- All free cells on other floors in the normal strategy's visiting order. -/
def normalCandidates (g : Grid) (current_floor : Nat) : List Coord :=
  (floorOrder current_floor).flatMap (floorScan g)

/-- The normal strategy of `find_empty_slots_other_floors` (lines 51-65).  The
Python loop returns as soon as `needed` cells are collected (appending a
placeholder `(f+1, 0)` on that floor when requested); if the loops are
exhausted — which happens exactly when `needed = 0` or fewer than `needed`
free cells exist — it returns everything collected, with the placeholder
`(empty[-1][0], 0)` when requested and nonempty.  Both placeholder floors equal
the floor of the last collected cell, so both paths are the expression below. -/
def find_empty_normal (g : Grid) (current_floor needed : Nat) (placeholder : Bool) :
    List Coord :=
  let cand := normalCandidates g current_floor
  if needed ≠ 0 ∧ needed ≤ cand.length then
    let e := cand.take needed
    if placeholder then e ++ [(((e.getLast?).map Prod.fst).getD 0, 0)] else e
  else
    if placeholder ∧ cand ≠ [] then cand ++ [(((cand.getLast?).map Prod.fst).getD 0, 0)]
    else cand

/-- The optuna strategy's candidate pool (lines 69-73): free cells on other
floors, floors ascending (no distance sort), slots ascending. -/
def optunaCandidates (g : Grid) (current_floor : Nat) : List Coord :=
  ((List.range floors).erase current_floor).flatMap (floorScan g)

/-- First-seen deduplication (lines 102-111: append an index only if it is not
already in `best_indices`).  `seen` accumulates the indices kept so far. -/
def firstSeen (seen : List Nat) : List Nat → List Nat
  | [] => []
  | x :: xs => if x ∈ seen then firstSeen seen xs else x :: firstSeen (x :: seen) xs

/-- The `best_indices` extraction (lines 101-111): read the best trial's
parameters `slot_0 .. slot_(needed-1)` and deduplicate them first-seen.  The
`break` at `needed` kept indices is redundant since at most `needed` values
are read. -/
def bestIndices (needed : Nat) (oracle : List Nat) : List Nat :=
  firstSeen [] ((List.range needed).filterMap (fun i => oracle.get? i))

/-- The optuna strategy of `find_empty_slots_other_floors` (lines 68-118), with
the study's best-trial parameters supplied by `oracle`.  `candidates[i]` is
modelled totally as `getD i (0, 0)`; in the program each index comes from
`suggest_int(0, len(candidates) - 1)` and is in range, and the slot-0 default
is discarded by every consumer exactly like a placeholder entry. -/
def find_empty_optuna (g : Grid) (current_floor needed : Nat) (placeholder : Bool)
    (oracle : List Nat) : List Coord :=
  let cand := optunaCandidates g current_floor
  if cand.length < needed then
    if placeholder ∧ cand ≠ [] then cand ++ [(((cand.getLast?).map Prod.fst).getD 0, 0)]
    else cand
  else
    let best := (bestIndices needed oracle).map (fun i => cand.getD i (0, 0))
    if placeholder then best ++ [(((best.getLast?).map Prod.fst).getD 0, 0)] else best

/-- The two strategies ("normal" / "optuna" strings in the source). -/
inductive Strategy where
  | normal
  | optuna
deriving DecidableEq

/-- `find_empty_slots_other_floors` (lines 38-121), dispatching on the
strategy.  The `else: raise ValueError` branch is unreachable with the
enumerated strategy type. -/
def find_empty_slots_other_floors (g : Grid) (current_floor needed : Nat)
    (placeholder : Bool) : Strategy → List Nat → List Coord
  | .normal, _ => find_empty_normal g current_floor needed placeholder
  | .optuna, oracle => find_empty_optuna g current_floor needed placeholder oracle

/-- The per-pair cost of `total_cost` inside `compare_strategies`
(lines 395-399): `2*floor_diff*floor_time + slot_diff*slot_time + 10.0`. -/
def pairCost (floor_time slot_time : ℤ) (origin dest : Coord) : ℤ :=
  2 * (natDist origin.1 dest.1 : ℤ) * floor_time +
    (natDist origin.2 dest.2 : ℤ) * slot_time + 10

/-- `total_cost` (lines 393-400): zip the blocking list with the assignment
list in the given order (no sorting) and sum the pair costs. -/
def total_cost (floor_time slot_time : ℤ) (assignments blocking : List Coord) : ℤ :=
  ((blocking.zip assignments).map (fun p => pairCost floor_time slot_time p.1 p.2)).sum

/-- One candidate's contribution to the optuna objective (lines 88-94):
`2 * (floor_diff*floor_time + slot_diff*slot_time + 10.0)`, measured from the
reference origin `(current_floor + 1, 1)`. -/
def objectiveContribution (current_floor : Nat) (floor_time slot_time : ℤ)
    (c : Coord) : ℤ :=
  2 * ((natDist (current_floor + 1) c.1 : ℤ) * floor_time +
    (natDist 1 c.2 : ℤ) * slot_time + 10)

/-- The optuna objective (lines 78-96) on one trial's chosen indices: `none`
models the `float("inf")` duplicate penalty. -/
def objective (current_floor : Nat) (floor_time slot_time : ℤ) (cand : List Coord)
    (indices : List Nat) : Option ℤ :=
  if indices.Nodup then
    some ((indices.map
      (fun i => objectiveContribution current_floor floor_time slot_time
        (cand.getD i (0, 0)))).sum)
  else none

/-- `compare_strategies` (lines 369-420): run both strategies with
`needed = len(blocking)`, compare the total costs of the results truncated to
`needed`, return the strictly cheaper strategy, ties to normal. -/
def compare_strategies (g : Grid) (current_floor : Nat) (blocking : List Coord)
    (slot_time floor_time : ℤ) (oracle : List Nat) : Strategy :=
  let needed := blocking.length
  let normal_slots := find_empty_slots_other_floors g current_floor needed false .normal []
  let optuna_slots := find_empty_slots_other_floors g current_floor needed false .optuna oracle
  let normal_cost := total_cost floor_time slot_time (normal_slots.take needed) blocking
  let optuna_cost := total_cost floor_time slot_time (optuna_slots.take needed) blocking
  if normal_cost < optuna_cost then .normal
  else if optuna_cost < normal_cost then .optuna
  else .normal

/-- The grouping `empty_candidate` (lines 208-218): slots of `temp_empty` per
floor (floors 1..`floors` in ascending dict-insertion order, placeholder
entries with slot 0 dropped, floors with no entries dropped). -/
def empty_candidate (temp_empty : List Coord) : List (Nat × List Nat) :=
  (List.range floors).filterMap (fun i =>
    let f := i + 1
    let sl := (temp_empty.filter (fun c => c.1 == f && decide (0 < c.2))).map Prod.snd
    if sl = [] then none else some (f, sl))

/-- Python `max` on a nonempty list of naturals (0 on `[]`, unreachable since
grouped slot lists are nonempty). -/
def maxList : List Nat → Nat
  | [] => 0
  | x :: xs => max x (maxList xs)

/-- The consolidation loop body for one floor (lines 224-235): scan 1-based
slots `s = M, M-1, ..., 1`; each occupied slot is moved (via `moveinside`) to
the current 1-based `target`, the move is recorded, and `target` decrements.
`f0` is the 0-based floor. -/
def consolFloor (f0 : Nat) : Nat → Nat → Grid → Grid × List Move
  | 0, _, g => (g, [])
  | s + 1, t, g =>
    if g f0 s = true then
      let g' := moveinside g f0 s (t - 1)
      let r := consolFloor f0 s (t - 1) g'
      (r.1, ((f0, s), (f0, t - 1)) :: r.2)
    else consolFloor f0 s t g

/-- The intra-floor consolidation pass over all grouped floors
(lines 224-235), each starting at `target = max(emptyslot)`. -/
def consolidateAll : List (Nat × List Nat) → Grid → Grid × List Move
  | [], g => (g, [])
  | (f, sl) :: rest, g =>
    let M := maxList sl
    let r1 := consolFloor (f - 1) M M g
    let r2 := consolidateAll rest r1.1
    (r2.1, r1.2 ++ r2.2)

/-- The cross-floor relocation pass (lines 241-256): pair the ascending
blocking list with the head of the descending destination list, applying
`animate_move` and consuming one destination per blocking pallet; the returned
flag is `false` when the pool is exhausted early (the partial-failure return). -/
def crossFloor : List Coord → List Coord → Grid → Grid × List Move × Bool
  | [], _, g => (g, [], true)
  | _ :: _, [], g => (g, [], false)
  | b :: bs, t :: ts, g =>
    let m : Move := ((b.1 - 1, b.2 - 1), (t.1 - 1, t.2 - 1))
    let g' := animate_move g m
    let r := crossFloor bs ts g'
    (r.1, m :: r.2.1, r.2.2)

/-- The relocation plan of `adding`/`removing` (lines 203-256): intra-floor
consolidation over the grouped strategy result, then the cross-floor pass over
the recomputed normal-strategy destination pool. -/
def relocate (g : Grid) (FLOOR : Nat) (blocking e : List Coord) :
    Grid × List Move × Bool :=
  let temp_blocking := sortCoords blocking
  let temp_empty := sortCoordsDesc e
  let groups := empty_candidate temp_empty
  let r1 := consolidateAll groups g
  let new_empty := find_empty_slots_other_floors r1.1 FLOOR blocking.length false .normal []
  let temp_new_empty := sortCoordsDesc new_empty
  let r2 := crossFloor temp_blocking temp_new_empty r1.1
  (r2.1, r1.2 ++ r2.2.1, r2.2.2)

/-- Transaction outcomes of `adding`/`removing`, one per return statement:
direct mutation, user cancellation, pre-execution infeasibility, mid-pass
abort with moves already applied, and completion (whose return message carries
the `compare_strategies` output). -/
inductive Status where
  | direct
  | cancelled
  | infeasible
  | midAbort
  | done (output : Strategy)
deriving DecidableEq

/-- A transaction that ran to completion (not cancelled, not infeasible, not
aborted mid-pass). -/
def Status.completed : Status → Bool
  | .direct => true
  | .done _ => true
  | _ => false

/-- The common body of `adding` (lines 174-270) and `removing` (lines 271-368);
the two functions are textually identical except for the value written at the
target cell (`True` for adding, `False` for removing).  `newVal` is that value,
`cancel` the confirmation gate's answer, `oc` the optuna oracle of the
`compare_strategies` call and `of` that of the strategy's own finder call.
Returns the outcome, the final grid, and the recorded `moves` list. -/
def warehouseTx (newVal : Bool) (g : Grid) (FLOOR SLOT : Nat) (cancel : Bool)
    (oc of : List Nat) : Status × Grid × List Move :=
  let blocking := check_blocking_infloor g FLOOR SLOT
  let output := compare_strategies g 0 blocking 15 100 oc
  if blocking = [] then (.direct, setCell g FLOOR SLOT newVal, [])
  else if cancel then (.cancelled, g, [])
  else
    let e := find_empty_slots_other_floors g FLOOR blocking.length false output of
    if e.length < blocking.length then (.infeasible, g, [])
    else
      let r := relocate g FLOOR blocking e
      if r.2.2 then
        (.done output, applyMoves (setCell r.1 FLOOR SLOT newVal) (revSwap r.2.1), r.2.1)
      else (.midAbort, r.1, r.2.1)

/-- `adding` (lines 174-270). -/
def adding (g : Grid) (FLOOR SLOT : Nat) (cancel : Bool) (oc of : List Nat) :
    Status × Grid × List Move :=
  warehouseTx true g FLOOR SLOT cancel oc of

/-- `removing` (lines 271-368). -/
def removing (g : Grid) (FLOOR SLOT : Nat) (cancel : Bool) (oc of : List Nat) :
    Status × Grid × List Move :=
  warehouseTx false g FLOOR SLOT cancel oc of

/-- Modelled from the spec: the cost model of §3,
`cost(a,b) = 2*floor_time*|floor(a)-floor(b)| + slot_time*|slot(a)-slot(b)| +
handling_time`.  Used only to compare the spec's claimed model with the code's
two cost formulas. -/
def specCost (floor_time slot_time handling : ℤ) (a b : Coord) : ℤ :=
  2 * floor_time * (natDist a.1 b.1 : ℤ) + slot_time * (natDist a.2 b.2 : ℤ) + handling

/-- Modelled from the spec: `total_cost` as §4.4 describes it — sort both
sequences ascending by `(floor, slot)` before pairing positionally.  Used only
to compare with the code's `total_cost`. -/
def total_cost_spec (floor_time slot_time : ℤ) (assignments blocking : List Coord) : ℤ :=
  (((sortCoords blocking).zip (sortCoords assignments)).map
    (fun p => pairCost floor_time slot_time p.1 p.2)).sum

/-- Python list indexing semantics: `l[i]` succeeds for `0 ≤ i < len` and for
`-len ≤ i < 0` (wrapping to `len + i`); anything else raises `IndexError`,
modelled as `none`. -/
def pyIndex {α : Type} (l : List α) (i : Int) : Option α :=
  if 0 ≤ i then l.get? i.toNat
  else if 0 ≤ (l.length : Int) + i then l.get? ((l.length : Int) + i).toNat
  else none

/-- A raw grid cell read `warehouse[f][s]` with Python indexing, over the
list-of-lists representation the source actually uses. -/
def pyGetCell (w : List (List Bool)) (f s : Int) : Option Bool :=
  (pyIndex w f).bind (fun row => pyIndex row s)

/-- The all-free `floors × slots` warehouse the program creates at first
startup (lines 19-23). -/
def warehouse0 : List (List Bool) :=
  List.replicate floors (List.replicate slots false)

/-- The target cell is untouched by every move of the list. -/
def Avoids (c : Coord) (ms : List Move) : Prop :=
  ∀ m ∈ ms, m.1 ≠ c ∧ m.2 ≠ c

/-- A well-formed 1-based destination cell for a request on 0-based floor
`FLOOR`: in bounds, on another floor, and currently free. -/
def GoodCell (g : Grid) (FLOOR : Nat) (c : Coord) : Prop :=
  1 ≤ c.1 ∧ c.1 ≤ floors ∧ c.1 ≠ FLOOR + 1 ∧ 1 ≤ c.2 ∧ c.2 ≤ slots ∧
    g (c.1 - 1) (c.2 - 1) = false

/-- Concrete grid: the all-free warehouse. -/
def gEmpty : Grid := fun _ _ => false

/-- Concrete grid of spec Scenario B: floor 1 has slots 1 and 2 occupied
(0-based cells `(0,0)` and `(0,1)`). -/
def gScenarioB : Grid := fun f s => f == 0 && (s == 0 || s == 1)

/-- Concrete grid with the single cell `(0,0)` occupied. -/
def gSingle : Grid := fun f s => f == 0 && s == 0

/-- Concrete grid with cells `(0,0)` and `(4,2)` occupied. -/
def gTwo : Grid := fun f s => (f == 0 && s == 0) || (f == 4 && s == 2)

/-- Concrete grid in which every floor other than floor 0 is fully occupied
and floor 0 has slots 0 and 1 occupied. -/
def gCrowded : Grid := fun f s => !(f == 0) || (s == 0 || s == 1)

/-! ## Basic lemmas about moves and grids -/

theorem animate_move_apply (g : Grid) (m : Move) (f s : Nat) :
    animate_move g m f s =
      if f = m.1.1 ∧ s = m.1.2 then false
      else if f = m.2.1 ∧ s = m.2.2 then g m.1.1 m.1.2
      else g f s := rfl

theorem applyMoves_nil (g : Grid) : applyMoves g [] = g := rfl

theorem applyMoves_cons (g : Grid) (m : Move) (ms : List Move) :
    applyMoves g (m :: ms) = applyMoves (animate_move g m) ms := rfl

theorem applyMoves_append (g : Grid) (ms₁ ms₂ : List Move) :
    applyMoves g (ms₁ ++ ms₂) = applyMoves (applyMoves g ms₁) ms₂ :=
  List.foldl_append _ _ _ _

theorem animate_move_ne {g : Grid} {m : Move} {f s : Nat}
    (h1 : ¬(f = m.1.1 ∧ s = m.1.2)) (h2 : ¬(f = m.2.1 ∧ s = m.2.2)) :
    animate_move g m f s = g f s := by
  rw [animate_move_apply, if_neg h1, if_neg h2]

theorem applyMoves_ne {f s : Nat} :
    ∀ (ms : List Move) (g : Grid), Avoids (f, s) ms → applyMoves g ms f s = g f s := by
  intro ms
  induction ms with
  | nil => intro g _; rfl
  | cons m ms ih =>
    intro g h
    have hm := h m (List.mem_cons_self m ms)
    rw [applyMoves_cons, ih _ (fun m' hm' => h m' (List.mem_cons_of_mem m hm'))]
    apply animate_move_ne
    · rintro ⟨rfl, rfl⟩
      exact hm.1 (Prod.ext rfl rfl)
    · rintro ⟨rfl, rfl⟩
      exact hm.2 (Prod.ext rfl rfl)

theorem setCell_animate_move_comm {m : Move} {c : Coord} (g : Grid) (v : Bool)
    (h1 : m.1 ≠ c) (h2 : m.2 ≠ c) :
    animate_move (setCell g c.1 c.2 v) m = setCell (animate_move g m) c.1 c.2 v := by
  have e1 : ¬(m.1.1 = c.1 ∧ m.1.2 = c.2) := fun h => h1 (Prod.ext h.1 h.2)
  have e2 : ¬(m.2.1 = c.1 ∧ m.2.2 = c.2) := fun h => h2 (Prod.ext h.1 h.2)
  funext f s
  simp only [animate_move, setCell]
  split_ifs <;> first | rfl | omega

theorem applyMoves_setCell_comm {c : Coord} :
    ∀ (ms : List Move) (g : Grid) (v : Bool), Avoids c ms →
      applyMoves (setCell g c.1 c.2 v) ms = setCell (applyMoves g ms) c.1 c.2 v := by
  intro ms
  induction ms with
  | nil => intro g v _; rfl
  | cons m ms ih =>
    intro g v h
    have hm := h m (List.mem_cons_self m ms)
    rw [applyMoves_cons, setCell_animate_move_comm g v hm.1 hm.2,
      ih _ _ (fun m' hm' => h m' (List.mem_cons_of_mem m hm')), applyMoves_cons]

theorem Valid_setCell {g : Grid} {m : Move} {c : Coord} (v : Bool)
    (h1 : m.1 ≠ c) (h2 : m.2 ≠ c) :
    Valid (setCell g c.1 c.2 v) m ↔ Valid g m := by
  have e1 : ¬(m.1.1 = c.1 ∧ m.1.2 = c.2) := fun h => h1 (Prod.ext h.1 h.2)
  have e2 : ¬(m.2.1 = c.1 ∧ m.2.2 = c.2) := fun h => h2 (Prod.ext h.1 h.2)
  unfold Valid
  rw [setCell, setCell, if_neg e1, if_neg e2]

theorem ValidSeq_setCell {c : Coord} {v : Bool} :
    ∀ {ms : List Move} {g : Grid}, Avoids c ms → ValidSeq g ms →
      ValidSeq (setCell g c.1 c.2 v) ms := by
  intro ms
  induction ms with
  | nil => intro g _ _; exact ValidSeq.nil _
  | cons m ms ih =>
    intro g h hv
    cases hv with
    | cons hm hms =>
      have hc := h m (List.mem_cons_self m ms)
      refine ValidSeq.cons ((Valid_setCell v hc.1 hc.2).mpr hm) ?_
      rw [setCell_animate_move_comm g v hc.1 hc.2]
      exact ih (fun m' hm' => h m' (List.mem_cons_of_mem m hm')) hms

theorem ValidSeq_append : ∀ {ms₁ ms₂ : List Move} {g : Grid},
    ValidSeq g ms₁ → ValidSeq (applyMoves g ms₁) ms₂ → ValidSeq g (ms₁ ++ ms₂) := by
  intro ms₁
  induction ms₁ with
  | nil => intro ms₂ g _ h; exact h
  | cons m ms ih =>
    intro ms₂ g h1 h2
    cases h1 with
    | cons hm hms => exact ValidSeq.cons hm (ih hms h2)

theorem Valid.src_ne_dst {g : Grid} {m : Move} (h : Valid g m) : m.1 ≠ m.2 := by
  intro he
  obtain ⟨-, -, -, -, h5, h6⟩ := h
  rw [he, h6] at h5
  cases h5

theorem Valid.swap {g : Grid} {m : Move} (h : Valid g m) :
    Valid (animate_move g m) (m.2, m.1) := by
  have hne := h.src_ne_dst
  obtain ⟨h1, h2, h3, h4, h5, h6⟩ := h
  have e1 : ¬(m.2.1 = m.1.1 ∧ m.2.2 = m.1.2) := by
    rintro ⟨ha, hb⟩; exact hne (Prod.ext ha.symm hb.symm)
  refine ⟨h3, h4, h1, h2, ?_, ?_⟩
  · rw [animate_move_apply, if_neg e1]
    simp [h5]
  · rw [animate_move_apply]
    simp

theorem animate_move_unapply {g : Grid} {m : Move} (h : Valid g m) :
    animate_move (animate_move g m) (m.2, m.1) = g := by
  have hne := h.src_ne_dst
  obtain ⟨-, -, -, -, h5, h6⟩ := h
  have e1 : ¬(m.2.1 = m.1.1 ∧ m.2.2 = m.1.2) := by
    rintro ⟨ha, hb⟩; exact hne (Prod.ext ha.symm hb.symm)
  funext f s
  simp only [animate_move, setCell]
  split_ifs <;> first | rfl | simp_all

theorem revSwap_nil : revSwap [] = [] := rfl

theorem revSwap_cons (m : Move) (ms : List Move) :
    revSwap (m :: ms) = revSwap ms ++ [(m.2, m.1)] := by
  simp [revSwap]

theorem mem_revSwap {m : Move} {ms : List Move} :
    m ∈ revSwap ms ↔ (m.2, m.1) ∈ ms := by
  simp only [revSwap, List.mem_map, List.mem_reverse]
  constructor
  · rintro ⟨a, ha, rfl⟩; exact ha
  · intro h; exact ⟨(m.2, m.1), h, rfl⟩

theorem ValidSeq_revSwap : ∀ {ms : List Move} {g : Grid}, ValidSeq g ms →
    ValidSeq (applyMoves g ms) (revSwap ms) ∧
      applyMoves (applyMoves g ms) (revSwap ms) = g := by
  intro ms
  induction ms with
  | nil => intro g _; exact ⟨ValidSeq.nil _, rfl⟩
  | cons m ms ih =>
    intro g h
    cases h with
    | cons hm hms =>
      obtain ⟨ihv, ihe⟩ := ih hms
      rw [applyMoves_cons, revSwap_cons]
      refine ⟨ValidSeq_append ihv ?_, ?_⟩
      · rw [ihe]
        exact ValidSeq.cons hm.swap (ValidSeq.nil _)
      · rw [applyMoves_append, ihe]
        show animate_move (animate_move g m) (m.2, m.1) = g
        exact animate_move_unapply hm

theorem mem_occupiedCells {g : Grid} {c : Nat × Nat} :
    c ∈ occupiedCells g ↔ c.1 < floors ∧ c.2 < slots ∧ g c.1 c.2 = true := by
  simp [occupiedCells, Finset.mem_filter, Finset.mem_product, Finset.mem_range, and_assoc]

theorem occupiedCells_setCell_true {g : Grid} {f s : Nat} (hf : f < floors)
    (hs : s < slots) :
    occupiedCells (setCell g f s true) = insert (f, s) (occupiedCells g) := by
  ext c
  simp only [mem_occupiedCells, Finset.mem_insert, setCell]
  by_cases hc : c.1 = f ∧ c.2 = s
  · obtain ⟨h1, h2⟩ := hc
    simp [h1, h2, hf, hs, Prod.ext_iff]
  · rw [if_neg hc]
    constructor
    · intro h; exact Or.inr h
    · rintro (h | h)
      · exact absurd ⟨congrArg Prod.fst h, congrArg Prod.snd h⟩ hc
      · exact h

theorem occupiedCells_setCell_false {g : Grid} {f s : Nat} :
    occupiedCells (setCell g f s false) = (occupiedCells g).erase (f, s) := by
  ext c
  simp only [mem_occupiedCells, Finset.mem_erase, setCell]
  by_cases hc : c.1 = f ∧ c.2 = s
  · obtain ⟨h1, h2⟩ := hc
    simp [h1, h2, Prod.ext_iff]
  · rw [if_neg hc]
    constructor
    · intro h
      refine ⟨fun he => hc ⟨congrArg Prod.fst he, congrArg Prod.snd he⟩, h⟩
    · intro h; exact h.2

theorem occupiedCount_animate_move {g : Grid} {m : Move} (h : Valid g m) :
    occupiedCount (animate_move g m) = occupiedCount g := by
  have hne := h.src_ne_dst
  obtain ⟨h1, h2, h3, h4, h5, h6⟩ := h
  have hsrc : m.1 ∈ occupiedCells g := mem_occupiedCells.mpr ⟨h1, h2, h5⟩
  have hdst : m.2 ∉ occupiedCells g := by
    intro hmem
    rw [mem_occupiedCells, h6] at hmem
    exact absurd hmem.2.2 (by simp)
  have step : occupiedCells (animate_move g m) =
      (insert (m.2.1, m.2.2) (occupiedCells g)).erase (m.1.1, m.1.2) := by
    rw [animate_move, h5, occupiedCells_setCell_false, occupiedCells_setCell_true h3 h4]
  unfold occupiedCount
  rw [step, Finset.card_erase_of_mem, Finset.card_insert_of_not_mem]
  · omega
  · intro hc; exact hdst hc
  · refine Finset.mem_insert.mpr (Or.inr ?_)
    exact hsrc

theorem occupiedCount_applyMoves : ∀ {ms : List Move} {g : Grid}, ValidSeq g ms →
    occupiedCount (applyMoves g ms) = occupiedCount g := by
  intro ms
  induction ms with
  | nil => intro g _; rfl
  | cons m ms ih =>
    intro g h
    cases h with
    | cons hm hms => rw [applyMoves_cons, ih hms, occupiedCount_animate_move hm]

/-! ## Lemmas about the sorts and the scans -/

theorem sortCoords_perm (l : List Coord) : List.Perm (sortCoords l) l :=
  List.perm_insertionSort coordLe l

theorem mem_sortCoords {l : List Coord} {c : Coord} : c ∈ sortCoords l ↔ c ∈ l :=
  (sortCoords_perm l).mem_iff

theorem sortCoords_nodup {l : List Coord} (h : l.Nodup) : (sortCoords l).Nodup :=
  ((sortCoords_perm l).nodup_iff).mpr h

theorem mem_sortCoordsDesc {l : List Coord} {c : Coord} : c ∈ sortCoordsDesc l ↔ c ∈ l := by
  rw [sortCoordsDesc, List.mem_reverse, mem_sortCoords]

theorem sortCoordsDesc_nodup {l : List Coord} (h : l.Nodup) : (sortCoordsDesc l).Nodup := by
  rw [sortCoordsDesc, List.nodup_reverse]
  exact sortCoords_nodup h

theorem sortCoords_length (l : List Coord) : (sortCoords l).length = l.length :=
  (sortCoords_perm l).length_eq

theorem sortCoordsDesc_length (l : List Coord) : (sortCoordsDesc l).length = l.length := by
  rw [sortCoordsDesc, List.length_reverse, sortCoords_length]

theorem mem_check_blocking {g : Grid} {F S : Nat} {c : Coord} :
    c ∈ check_blocking_infloor g F S ↔
      ∃ s, s < S ∧ g F s = true ∧ c = (F + 1, s + 1) := by
  simp only [check_blocking_infloor, List.mem_filterMap, List.mem_range]
  constructor
  · rintro ⟨s, hs, he⟩
    by_cases hg : g F s = true
    · rw [if_pos hg] at he
      exact ⟨s, hs, hg, (Option.some.inj he).symm⟩
    · rw [if_neg hg] at he; cases he
  · rintro ⟨s, hs, hg, rfl⟩
    exact ⟨s, hs, by rw [if_pos hg]⟩

theorem check_blocking_nodup (g : Grid) (F S : Nat) :
    (check_blocking_infloor g F S).Nodup := by
  refine List.Nodup.filterMap ?_ (List.nodup_range S)
  intro a a' b ha ha'
  by_cases h1 : g F a = true
  · rw [if_pos h1] at ha
    by_cases h2 : g F a' = true
    · rw [if_pos h2] at ha'
      have e1 := Option.mem_some_iff.mp ha
      have e2 := Option.mem_some_iff.mp ha'
      rw [← e1] at e2
      have := congrArg Prod.snd e2
      omega
    · rw [if_neg h2] at ha'; cases ha'
  · rw [if_neg h1] at ha; cases ha

theorem mem_floorScan {g : Grid} {f : Nat} {c : Coord} :
    c ∈ floorScan g f ↔ ∃ s, s < slots ∧ g f s = false ∧ c = (f + 1, s + 1) := by
  simp only [floorScan, List.mem_filterMap, List.mem_range]
  constructor
  · rintro ⟨s, hs, he⟩
    by_cases hg : g f s = true
    · rw [if_pos hg] at he; cases he
    · rw [if_neg hg] at he
      refine ⟨s, hs, ?_, (Option.some.inj he).symm⟩
      cases hgv : g f s
      · rfl
      · exact absurd hgv hg
  · rintro ⟨s, hs, hg, rfl⟩
    exact ⟨s, hs, by rw [if_neg (by rw [hg]; simp)]⟩

theorem floorScan_nodup (g : Grid) (f : Nat) : (floorScan g f).Nodup := by
  refine List.Nodup.filterMap ?_ (List.nodup_range slots)
  intro a a' b ha ha'
  by_cases h1 : g f a = true
  · rw [if_pos h1] at ha; cases ha
  · rw [if_neg h1] at ha
    by_cases h2 : g f a' = true
    · rw [if_pos h2] at ha'; cases ha'
    · rw [if_neg h2] at ha'
      have e1 := Option.mem_some_iff.mp ha
      have e2 := Option.mem_some_iff.mp ha'
      rw [← e1] at e2
      have := congrArg Prod.snd e2
      omega

theorem flatMap_floorScan_nodup (g : Grid) :
    ∀ (fl : List Nat), fl.Nodup → (fl.flatMap (floorScan g)).Nodup := by
  intro fl
  induction fl with
  | nil => intro _; simp
  | cons f fs ih =>
    intro h
    rw [List.flatMap_cons]
    refine List.Nodup.append (floorScan_nodup g f) (ih h.of_cons) ?_
    intro c hc hc'
    obtain ⟨s, -, -, rfl⟩ := mem_floorScan.mp hc
    obtain ⟨f', hf', hcf'⟩ := List.mem_flatMap.mp hc'
    obtain ⟨s', -, -, he⟩ := mem_floorScan.mp hcf'
    have : f = f' := by
      have := congrArg Prod.fst he
      simpa using this
    rw [List.nodup_cons] at h
    exact h.1 (this ▸ hf')

theorem mem_floorOrder {current_floor f : Nat} :
    f ∈ floorOrder current_floor ↔ f < floors ∧ f ≠ current_floor := by
  rw [floorOrder, List.mem_insertionSort,
    (List.nodup_range floors).mem_erase_iff, List.mem_range]
  tauto

theorem floorOrder_nodup (current_floor : Nat) : (floorOrder current_floor).Nodup := by
  rw [floorOrder]
  exact ((List.perm_insertionSort _ _).nodup_iff).mpr
    ((List.nodup_range floors).erase current_floor)

theorem optuna_floor_list_nodup (current_floor : Nat) :
    ((List.range floors).erase current_floor).Nodup :=
  (List.nodup_range floors).erase current_floor

theorem mem_optuna_floor_list {current_floor f : Nat} :
    f ∈ (List.range floors).erase current_floor ↔ f < floors ∧ f ≠ current_floor := by
  rw [(List.nodup_range floors).mem_erase_iff, List.mem_range]
  tauto

theorem normalCandidates_good {g : Grid} {cf : Nat} {c : Coord}
    (h : c ∈ normalCandidates g cf) : GoodCell g cf c := by
  obtain ⟨f, hf, hc⟩ := List.mem_flatMap.mp h
  obtain ⟨s, hs, hg, rfl⟩ := mem_floorScan.mp hc
  obtain ⟨hf1, hf2⟩ := mem_floorOrder.mp hf
  exact ⟨by omega, by omega, by omega, by omega, by omega, by simpa using hg⟩

theorem optunaCandidates_good {g : Grid} {cf : Nat} {c : Coord}
    (h : c ∈ optunaCandidates g cf) : GoodCell g cf c := by
  obtain ⟨f, hf, hc⟩ := List.mem_flatMap.mp h
  obtain ⟨s, hs, hg, rfl⟩ := mem_floorScan.mp hc
  obtain ⟨hf1, hf2⟩ := mem_optuna_floor_list.mp hf
  exact ⟨by omega, by omega, by omega, by omega, by omega, by simpa using hg⟩

theorem normalCandidates_nodup (g : Grid) (cf : Nat) : (normalCandidates g cf).Nodup :=
  flatMap_floorScan_nodup g _ (floorOrder_nodup cf)

theorem optunaCandidates_nodup (g : Grid) (cf : Nat) : (optunaCandidates g cf).Nodup :=
  flatMap_floorScan_nodup g _ (optuna_floor_list_nodup cf)

theorem find_empty_normal_false (g : Grid) (cf needed : Nat) :
    find_empty_normal g cf needed false =
      if needed ≠ 0 ∧ needed ≤ (normalCandidates g cf).length then
        (normalCandidates g cf).take needed
      else normalCandidates g cf := by
  unfold find_empty_normal
  split_ifs <;> simp_all

theorem find_empty_optuna_false (g : Grid) (cf needed : Nat) (oracle : List Nat) :
    find_empty_optuna g cf needed false oracle =
      if (optunaCandidates g cf).length < needed then optunaCandidates g cf
      else (bestIndices needed oracle).map (fun i => (optunaCandidates g cf).getD i (0, 0)) := by
  unfold find_empty_optuna
  split_ifs <;> simp_all

theorem find_empty_normal_subset {g : Grid} {cf needed : Nat} {c : Coord}
    (h : c ∈ find_empty_normal g cf needed false) : c ∈ normalCandidates g cf := by
  rw [find_empty_normal_false] at h
  split_ifs at h
  · exact List.mem_of_mem_take h
  · exact h

theorem find_empty_normal_good {g : Grid} {cf needed : Nat} {c : Coord}
    (h : c ∈ find_empty_normal g cf needed false) : GoodCell g cf c :=
  normalCandidates_good (find_empty_normal_subset h)

theorem find_empty_normal_nodup (g : Grid) (cf needed : Nat) :
    (find_empty_normal g cf needed false).Nodup := by
  rw [find_empty_normal_false]
  split_ifs
  · exact (normalCandidates_nodup g cf).take
  · exact normalCandidates_nodup g cf

theorem find_empty_optuna_mem {g : Grid} {cf needed : Nat} {oracle : List Nat}
    {c : Coord} (h : c ∈ find_empty_optuna g cf needed false oracle) :
    c ∈ optunaCandidates g cf ∨ c = (0, 0) := by
  rw [find_empty_optuna_false] at h
  split_ifs at h
  · exact Or.inl h
  · rw [List.mem_map] at h
    obtain ⟨i, -, rfl⟩ := h
    by_cases hi : i < (optunaCandidates g cf).length
    · rw [List.getD_eq_getElem _ _ hi]
      exact Or.inl (List.getElem_mem hi)
    · right
      rw [List.getD_eq_default]
      omega

theorem find_empty_good {g : Grid} {cf needed : Nat} {strat : Strategy}
    {oracle : List Nat} {c : Coord}
    (h : c ∈ find_empty_slots_other_floors g cf needed false strat oracle)
    (hs : 0 < c.2) : GoodCell g cf c := by
  cases strat with
  | normal => exact find_empty_normal_good h
  | optuna =>
    rcases find_empty_optuna_mem h with h' | h'
    · exact optunaCandidates_good h'
    · rw [h'] at hs; cases hs

/-! ## The consolidation pass -/

theorem consolFloor_succ_pos (f0 s t : Nat) (g : Grid) (hg : g f0 s = true) :
    consolFloor f0 (s + 1) t g =
      ((consolFloor f0 s (t - 1) (moveinside g f0 s (t - 1))).1,
        ((f0, s), (f0, t - 1)) ::
          (consolFloor f0 s (t - 1) (moveinside g f0 s (t - 1))).2) := by
  simp [consolFloor, hg]

theorem consolFloor_succ_neg (f0 s t : Nat) (g : Grid) (hg : g f0 s = false) :
    consolFloor f0 (s + 1) t g = consolFloor f0 s t g := by
  simp [consolFloor, hg]

theorem moveinside_eq_animate {g : Grid} {f s d : Nat} (hs : g f s = true)
    (hd : g f d = false) :
    moveinside g f s d = animate_move g ((f, s), (f, d)) := by
  rw [moveinside, if_pos ⟨hs, hd⟩]

theorem consolFloor_spec {f0 : Nat} (hf0 : f0 < floors) :
    ∀ (s t : Nat) (g : Grid), s ≤ t → t ≤ slots →
      (∀ j, s < j → j ≤ t → g f0 (j - 1) = false) →
      (s = t → 0 < s → g f0 (s - 1) = false) →
      ValidSeq g (consolFloor f0 s t g).2 ∧
        (consolFloor f0 s t g).1 = applyMoves g (consolFloor f0 s t g).2 ∧
        (∀ m ∈ (consolFloor f0 s t g).2,
          m.1.1 = f0 ∧ m.2.1 = f0 ∧ m.1.2 < t ∧ m.2.2 < t) := by
  intro s
  induction s with
  | zero =>
    intro t g _ _ _ _
    exact ⟨ValidSeq.nil g, rfl, by intro m hm; cases hm⟩
  | succ s ih =>
    intro t g hst hts H1 H2
    by_cases hg : g f0 s = true
    · have hlt : s + 1 < t := by
        rcases Nat.lt_or_ge (s + 1) t with h | h
        · exact h
        · have he : s + 1 = t := by omega
          have := H2 he (by omega)
          simp only [Nat.add_sub_cancel] at this
          rw [hg] at this; cases this
      have hdst : g f0 (t - 1) = false := H1 t (by omega) (le_refl t)
      have hmv : Valid g ((f0, s), (f0, t - 1)) :=
        ⟨hf0, (by omega : s < slots), hf0, (by omega : t - 1 < slots), hg, hdst⟩
      rw [consolFloor_succ_pos f0 s t g hg, moveinside_eq_animate hg hdst]
      set g' := animate_move g ((f0, s), (f0, t - 1)) with hg'
      have H1' : ∀ j, s < j → j ≤ t - 1 → g' f0 (j - 1) = false := by
        intro j hj1 hj2
        by_cases hj : j = s + 1
        · subst hj
          rw [hg', animate_move_apply]
          simp
        · rw [hg', animate_move_ne (by simp; omega) (by simp; omega)]
          exact H1 j (by omega) (by omega)
      have H2' : s = t - 1 → 0 < s → g' f0 (s - 1) = false := by
        intro he _
        exact absurd he (by omega)
      obtain ⟨ihv, ihe, ihm⟩ := ih (t - 1) g' (by omega) (by omega) H1' H2'
      refine ⟨ValidSeq.cons hmv ihv, ?_, ?_⟩
      · rw [applyMoves_cons]
        exact ihe
      · intro m hm
        rcases List.mem_cons.mp hm with rfl | hm'
        · exact ⟨rfl, rfl, (by omega : s < t), (by omega : t - 1 < t)⟩
        · obtain ⟨e1, e2, e3, e4⟩ := ihm m hm'
          exact ⟨e1, e2, by omega, by omega⟩
    · have hgf : g f0 s = false := by
        cases hv : g f0 s
        · rfl
        · exact absurd hv hg
      rw [consolFloor_succ_neg f0 s t g hgf]
      refine ih t g (by omega) hts ?_ (fun he _ => absurd he (by omega))
      intro j hj1 hj2
      by_cases hj : j = s + 1
      · subst hj
        simpa using hgf
      · exact H1 j (by omega) hj2

theorem empty_candidate_mem {te : List Coord} {p : Nat × List Nat}
    (h : p ∈ empty_candidate te) :
    1 ≤ p.1 ∧ p.1 ≤ floors ∧ p.2 ≠ [] ∧ ∀ x ∈ p.2, (p.1, x) ∈ te ∧ 0 < x := by
  obtain ⟨i, hi, he⟩ := List.mem_filterMap.mp h
  rw [List.mem_range] at hi
  simp only at he
  by_cases hsl : (te.filter (fun c => c.1 == i + 1 && decide (0 < c.2))).map Prod.snd = []
  · rw [if_pos hsl] at he; cases he
  · rw [if_neg hsl] at he
    have hp := Option.some.inj he
    subst hp
    refine ⟨by omega, by omega, hsl, ?_⟩
    intro x hx
    rw [List.mem_map] at hx
    obtain ⟨c, hc, rfl⟩ := hx
    rw [List.mem_filter] at hc
    have hpred := hc.2
    rw [Bool.and_eq_true, beq_iff_eq, decide_eq_true_eq] at hpred
    refine ⟨?_, hpred.2⟩
    have : c = (i + 1, c.2) := Prod.ext hpred.1 rfl
    rw [← this]
    exact hc.1

theorem empty_candidate_pairwise (te : List Coord) :
    (empty_candidate te).Pairwise (fun a b => a.1 ≠ b.1) := by
  unfold empty_candidate
  rw [List.pairwise_filterMap]
  refine List.Pairwise.imp ?_ (List.pairwise_lt_range floors)
  intro a a' hlt b hb b' hb'
  simp only at hb hb'
  by_cases h1 : (te.filter (fun c => c.1 == a + 1 && decide (0 < c.2))).map Prod.snd = []
  · rw [if_pos h1] at hb; cases hb
  · rw [if_neg h1] at hb
    by_cases h2 : (te.filter (fun c => c.1 == a' + 1 && decide (0 < c.2))).map Prod.snd = []
    · rw [if_pos h2] at hb'; cases hb'
    · rw [if_neg h2] at hb'
      have e1 := Option.mem_some_iff.mp hb
      have e2 := Option.mem_some_iff.mp hb'
      rw [← e1, ← e2]
      simp only
      omega

theorem maxList_mem : ∀ {l : List Nat}, l ≠ [] → maxList l ∈ l := by
  intro l
  induction l with
  | nil => intro h; exact absurd rfl h
  | cons x xs ih =>
    intro _
    by_cases hx : xs = []
    · subst hx
      simp [maxList]
    · rcases le_or_lt (maxList xs) x with h | h
      · have : maxList (x :: xs) = x := by
          rw [maxList]; omega
        rw [this]
        exact List.mem_cons_self x xs
      · have : maxList (x :: xs) = maxList xs := by
          rw [maxList]; omega
        rw [this]
        exact List.mem_cons_of_mem x (ih hx)

theorem consolidateAll_cons (f : Nat) (sl : List Nat) (rest : List (Nat × List Nat))
    (g : Grid) :
    consolidateAll ((f, sl) :: rest) g =
      ((consolidateAll rest (consolFloor (f - 1) (maxList sl) (maxList sl) g).1).1,
        (consolFloor (f - 1) (maxList sl) (maxList sl) g).2 ++
          (consolidateAll rest (consolFloor (f - 1) (maxList sl) (maxList sl) g).1).2) := by
  simp [consolidateAll]

/-- Specification of the full consolidation pass: if every grouped floor is a
real in-bounds floor other than the request floor and its maximal grouped slot
is free in `g`, then every recorded move is valid at its application time, the
returned grid is the recorded moves applied in order, and every recorded move
stays on the grouped floors with slot index below `slots`. -/
theorem consolidateAll_spec {FLOOR : Nat} :
    ∀ (groups : List (Nat × List Nat)) (g : Grid),
      groups.Pairwise (fun a b => a.1 ≠ b.1) →
      (∀ p ∈ groups, 1 ≤ p.1 ∧ p.1 ≤ floors ∧ p.1 ≠ FLOOR + 1 ∧
        maxList p.2 ≤ slots ∧ g (p.1 - 1) (maxList p.2 - 1) = false) →
      ValidSeq g (consolidateAll groups g).2 ∧
        (consolidateAll groups g).1 = applyMoves g (consolidateAll groups g).2 ∧
        (∀ m ∈ (consolidateAll groups g).2,
          (∃ p ∈ groups, m.1.1 = p.1 - 1 ∧ m.2.1 = p.1 - 1 ∧ p.1 ≠ FLOOR + 1 ∧
            1 ≤ p.1 ∧ p.1 ≤ floors) ∧ m.1.2 < slots ∧ m.2.2 < slots) := by
  intro groups
  induction groups with
  | nil =>
    intro g _ _
    exact ⟨ValidSeq.nil g, rfl, by intro m hm; cases hm⟩
  | cons p rest ih =>
    intro g hpw hgood
    obtain ⟨h1, h2, h3, h4, h5⟩ := hgood p (List.mem_cons_self p rest)
    obtain ⟨f, sl⟩ := p
    simp only at h1 h2 h3 h4 h5
    have hf0 : f - 1 < floors := by omega
    obtain ⟨cv, ce, cm⟩ := consolFloor_spec hf0 (maxList sl) (maxList sl) g
      (le_refl _) h4 (fun j hj1 hj2 => absurd hj2 (by omega)) (fun _ _ => h5)
    rw [consolidateAll_cons]
    set r1 := consolFloor (f - 1) (maxList sl) (maxList sl) g with hr1
    have hrest_good : ∀ p ∈ rest, 1 ≤ p.1 ∧ p.1 ≤ floors ∧ p.1 ≠ FLOOR + 1 ∧
        maxList p.2 ≤ slots ∧ r1.1 (p.1 - 1) (maxList p.2 - 1) = false := by
      intro q hq
      obtain ⟨k1, k2, k3, k4, k5⟩ := hgood q (List.mem_cons_of_mem _ hq)
      refine ⟨k1, k2, k3, k4, ?_⟩
      have hne : f ≠ q.1 := (List.pairwise_cons.mp hpw).1 q hq
      rw [ce, applyMoves_ne]
      · exact k5
      · intro m hm
        obtain ⟨e1, e2, -, -⟩ := cm m hm
        constructor
        · intro he
          have := congrArg Prod.fst he
          simp only [e1] at this
          omega
        · intro he
          have := congrArg Prod.fst he
          simp only [e2] at this
          omega
    obtain ⟨iv, ie, im⟩ := ih r1.1 (List.pairwise_cons.mp hpw).2 hrest_good
    refine ⟨ValidSeq_append cv (by rw [← ce]; exact iv), ?_, ?_⟩
    · simp only
      rw [applyMoves_append, ← ce]
      exact ie
    · intro m hm
      rcases List.mem_append.mp hm with hm' | hm'
      · obtain ⟨e1, e2, e3, e4⟩ := cm m hm'
        exact ⟨⟨(f, sl), List.mem_cons_self _ _, e1, e2, h3, h1, h2⟩, by omega, by omega⟩
      · obtain ⟨⟨q, hq, eq1⟩, e3, e4⟩ := im m hm'
        exact ⟨⟨q, List.mem_cons_of_mem _ hq, eq1⟩, e3, e4⟩

/-! ## The cross-floor pass -/

theorem crossFloor_cons (b t : Coord) (bs ts : List Coord) (g : Grid) :
    crossFloor (b :: bs) (t :: ts) g =
      ((crossFloor bs ts (animate_move g ((b.1 - 1, b.2 - 1), (t.1 - 1, t.2 - 1)))).1,
        ((b.1 - 1, b.2 - 1), (t.1 - 1, t.2 - 1)) ::
          (crossFloor bs ts
            (animate_move g ((b.1 - 1, b.2 - 1), (t.1 - 1, t.2 - 1)))).2.1,
        (crossFloor bs ts
          (animate_move g ((b.1 - 1, b.2 - 1), (t.1 - 1, t.2 - 1)))).2.2) := by
  simp [crossFloor]

theorem crossFloor_spec {F S : Nat} (hF : F < floors) (hS : S ≤ slots) :
    ∀ (bs ts : List Coord) (g : Grid),
      (∀ b ∈ bs, b.1 = F + 1 ∧ 1 ≤ b.2 ∧ b.2 ≤ S ∧ g F (b.2 - 1) = true) →
      bs.Nodup →
      (∀ t ∈ ts, GoodCell g F t) →
      ts.Nodup →
      ValidSeq g (crossFloor bs ts g).2.1 ∧
        (crossFloor bs ts g).1 = applyMoves g (crossFloor bs ts g).2.1 ∧
        (∀ m ∈ (crossFloor bs ts g).2.1,
          m.1.1 = F ∧ m.1.2 < S ∧ m.2.1 ≠ F ∧ m.2.1 < floors ∧ m.2.2 < slots) := by
  intro bs
  induction bs with
  | nil =>
    intro ts g _ _ _ _
    exact ⟨ValidSeq.nil g, rfl, by intro m hm; cases hm⟩
  | cons b bs ih =>
    intro ts g hbs hbnd hts htnd
    cases ts with
    | nil =>
      exact ⟨ValidSeq.nil g, rfl, by intro m hm; cases hm⟩
    | cons t ts =>
      obtain ⟨hb1, hb2, hb3, hb4⟩ := hbs b (List.mem_cons_self b bs)
      obtain ⟨ht1, ht2, ht3, ht4, ht5, ht6⟩ := hts t (List.mem_cons_self t ts)
      have hbF : b.1 - 1 = F := by omega
      have hmv : Valid g ((b.1 - 1, b.2 - 1), (t.1 - 1, t.2 - 1)) := by
        refine ⟨(by omega : b.1 - 1 < floors), (by omega : b.2 - 1 < slots),
          (by omega : t.1 - 1 < floors), (by omega : t.2 - 1 < slots), ?_, ?_⟩
        · show g (b.1 - 1) (b.2 - 1) = true
          rw [hbF]; exact hb4
        · exact ht6
      rw [crossFloor_cons]
      set g' := animate_move g ((b.1 - 1, b.2 - 1), (t.1 - 1, t.2 - 1)) with hg'
      have hbs' : ∀ b' ∈ bs, b'.1 = F + 1 ∧ 1 ≤ b'.2 ∧ b'.2 ≤ S ∧
          g' F (b'.2 - 1) = true := by
        intro b' hb'
        obtain ⟨k1, k2, k3, k4⟩ := hbs b' (List.mem_cons_of_mem b hb')
        refine ⟨k1, k2, k3, ?_⟩
        have hne : b' ≠ b := by
          intro he
          rw [List.nodup_cons] at hbnd
          exact hbnd.1 (he ▸ hb')
        have hslot : b'.2 ≠ b.2 := by
          intro he
          exact hne (Prod.ext (by omega) he)
        rw [hg', animate_move_ne]
        · exact k4
        · show ¬(F = b.1 - 1 ∧ b'.2 - 1 = b.2 - 1)
          rintro ⟨-, he⟩
          omega
        · show ¬(F = t.1 - 1 ∧ b'.2 - 1 = t.2 - 1)
          rintro ⟨he, -⟩
          omega
      have hts' : ∀ t' ∈ ts, GoodCell g' F t' := by
        intro t' ht'
        obtain ⟨k1, k2, k3, k4, k5, k6⟩ := hts t' (List.mem_cons_of_mem t ht')
        refine ⟨k1, k2, k3, k4, k5, ?_⟩
        have hne : t' ≠ t := by
          intro he
          rw [List.nodup_cons] at htnd
          exact htnd.1 (he ▸ ht')
        rw [hg', animate_move_ne]
        · exact k6
        · show ¬(t'.1 - 1 = b.1 - 1 ∧ t'.2 - 1 = b.2 - 1)
          rintro ⟨he, -⟩
          omega
        · show ¬(t'.1 - 1 = t.1 - 1 ∧ t'.2 - 1 = t.2 - 1)
          rintro ⟨he1, he2⟩
          exact hne (Prod.ext (by omega) (by omega))
      obtain ⟨iv, ie, im⟩ := ih ts g' hbs' hbnd.of_cons hts' htnd.of_cons
      refine ⟨ValidSeq.cons hmv iv, ?_, ?_⟩
      · simp only
        rw [applyMoves_cons]
        exact ie
      · intro m hm
        rcases List.mem_cons.mp hm with rfl | hm'
        · exact ⟨(by omega : b.1 - 1 = F), (by omega : b.2 - 1 < S),
            (by omega : t.1 - 1 ≠ F), (by omega : t.1 - 1 < floors),
            (by omega : t.2 - 1 < slots)⟩
        · exact im m hm'

/-! ## The relocation plan -/

theorem relocate_eq (g : Grid) (FLOOR : Nat) (blocking e : List Coord) :
    relocate g FLOOR blocking e =
      ((crossFloor (sortCoords blocking)
          (sortCoordsDesc (find_empty_normal
            (consolidateAll (empty_candidate (sortCoordsDesc e)) g).1 FLOOR
            blocking.length false))
          (consolidateAll (empty_candidate (sortCoordsDesc e)) g).1).1,
        (consolidateAll (empty_candidate (sortCoordsDesc e)) g).2 ++
          (crossFloor (sortCoords blocking)
            (sortCoordsDesc (find_empty_normal
              (consolidateAll (empty_candidate (sortCoordsDesc e)) g).1 FLOOR
              blocking.length false))
            (consolidateAll (empty_candidate (sortCoordsDesc e)) g).1).2.1,
        (crossFloor (sortCoords blocking)
          (sortCoordsDesc (find_empty_normal
            (consolidateAll (empty_candidate (sortCoordsDesc e)) g).1 FLOOR
            blocking.length false))
          (consolidateAll (empty_candidate (sortCoordsDesc e)) g).1).2.2) := rfl

theorem relocate_spec {g : Grid} {FLOOR SLOT : Nat} {blocking e : List Coord}
    (hF : FLOOR < floors) (hS : SLOT < slots)
    (hb : ∀ b ∈ blocking,
      b.1 = FLOOR + 1 ∧ 1 ≤ b.2 ∧ b.2 ≤ SLOT ∧ g FLOOR (b.2 - 1) = true)
    (hbnd : blocking.Nodup)
    (he : ∀ c ∈ e, 0 < c.2 → GoodCell g FLOOR c) :
    ValidSeq g (relocate g FLOOR blocking e).2.1 ∧
      (relocate g FLOOR blocking e).1 = applyMoves g (relocate g FLOOR blocking e).2.1 ∧
      Avoids (FLOOR, SLOT) (relocate g FLOOR blocking e).2.1 := by
  rw [relocate_eq]
  set te := sortCoordsDesc e with hte
  set groups := empty_candidate te with hgroups
  have hgood : ∀ p ∈ groups, 1 ≤ p.1 ∧ p.1 ≤ floors ∧ p.1 ≠ FLOOR + 1 ∧
      maxList p.2 ≤ slots ∧ g (p.1 - 1) (maxList p.2 - 1) = false := by
    intro p hp
    obtain ⟨k1, k2, k3, k4⟩ := empty_candidate_mem hp
    obtain ⟨hmem, hpos⟩ := k4 (maxList p.2) (maxList_mem k3)
    rw [hte, mem_sortCoordsDesc] at hmem
    obtain ⟨e1, e2, e3, e4, e5, e6⟩ := he (p.1, maxList p.2) hmem hpos
    exact ⟨k1, e2, e3, e5, e6⟩
  obtain ⟨cv, ce, cm⟩ :=
    consolidateAll_spec groups g (empty_candidate_pairwise te) hgood
  set r1 := consolidateAll groups g with hr1
  have hconsol_off : ∀ m ∈ r1.2, m.1.1 ≠ FLOOR ∧ m.2.1 ≠ FLOOR := by
    intro m hm
    obtain ⟨⟨p, hp, e1, e2, e3, e4, e5⟩, -, -⟩ := cm m hm
    constructor
    · rw [e1]; omega
    · rw [e2]; omega
  set nw := find_empty_normal r1.1 FLOOR blocking.length false with hnw
  set tnw := sortCoordsDesc nw with htnw
  set tb := sortCoords blocking with htb
  have hb' : ∀ b ∈ tb, b.1 = FLOOR + 1 ∧ 1 ≤ b.2 ∧ b.2 ≤ SLOT ∧
      r1.1 FLOOR (b.2 - 1) = true := by
    intro b hbm
    rw [htb, mem_sortCoords] at hbm
    obtain ⟨k1, k2, k3, k4⟩ := hb b hbm
    refine ⟨k1, k2, k3, ?_⟩
    rw [ce, applyMoves_ne]
    · exact k4
    · intro m hm
      obtain ⟨o1, o2⟩ := hconsol_off m hm
      constructor
      · intro hme
        exact o1 (congrArg Prod.fst hme)
      · intro hme
        exact o2 (congrArg Prod.fst hme)
  have ht' : ∀ t ∈ tnw, GoodCell r1.1 FLOOR t := by
    intro t htm
    rw [htnw, mem_sortCoordsDesc] at htm
    exact find_empty_normal_good htm
  obtain ⟨xv, xe, xm⟩ := crossFloor_spec hF (by omega) tb tnw r1.1 hb'
    (sortCoords_nodup hbnd) ht' (sortCoordsDesc_nodup (find_empty_normal_nodup _ _ _))
  refine ⟨ValidSeq_append cv (by rw [← ce]; exact xv), ?_, ?_⟩
  · simp only
    rw [applyMoves_append, ← ce]
    exact xe
  · intro m hm
    rcases List.mem_append.mp hm with hm' | hm'
    · obtain ⟨o1, o2⟩ := hconsol_off m hm'
      constructor
      · intro hme
        exact o1 (congrArg Prod.fst hme)
      · intro hme
        exact o2 (congrArg Prod.fst hme)
    · obtain ⟨x1, x2, x3, -, -⟩ := xm m hm'
      constructor
      · intro hme
        have := congrArg Prod.snd hme
        simp only at this
        omega
      · intro hme
        exact x3 (congrArg Prod.fst hme)

/-! ## The transaction -/

theorem check_blocking_props {g : Grid} {F S : Nat} {b : Coord}
    (h : b ∈ check_blocking_infloor g F S) :
    b.1 = F + 1 ∧ 1 ≤ b.2 ∧ b.2 ≤ S ∧ g F (b.2 - 1) = true := by
  obtain ⟨s, hs, hg, rfl⟩ := mem_check_blocking.mp h
  exact ⟨rfl, by omega, by omega, by simpa using hg⟩

theorem Avoids_revSwap {c : Coord} {ms : List Move} (h : Avoids c ms) :
    Avoids c (revSwap ms) := by
  intro m hm
  have := h (m.2, m.1) (mem_revSwap.mp hm)
  exact ⟨this.2, this.1⟩

theorem warehouseTx_cases (v : Bool) (g : Grid) (F S : Nat) (c : Bool)
    (oc of : List Nat) :
    (check_blocking_infloor g F S = [] ∧
      warehouseTx v g F S c oc of = (.direct, setCell g F S v, [])) ∨
    (check_blocking_infloor g F S ≠ [] ∧ c = true ∧
      warehouseTx v g F S c oc of = (.cancelled, g, [])) ∨
    (check_blocking_infloor g F S ≠ [] ∧ c = false ∧
      warehouseTx v g F S c oc of = (.infeasible, g, [])) ∨
    (∃ blocking e r, blocking = check_blocking_infloor g F S ∧ blocking ≠ [] ∧
      c = false ∧
      e = find_empty_slots_other_floors g F blocking.length false
        (compare_strategies g 0 blocking 15 100 oc) of ∧
      r = relocate g F blocking e ∧
      ((r.2.2 = true ∧ warehouseTx v g F S c oc of =
          (Status.done (compare_strategies g 0 blocking 15 100 oc),
            applyMoves (setCell r.1 F S v) (revSwap r.2.1), r.2.1)) ∨
        (r.2.2 = false ∧
          warehouseTx v g F S c oc of = (.midAbort, r.1, r.2.1)))) := by
  by_cases hbe : check_blocking_infloor g F S = []
  · left
    refine ⟨hbe, ?_⟩
    simp only [warehouseTx]
    rw [if_pos hbe]
  · cases c with
    | true =>
      right; left
      refine ⟨hbe, rfl, ?_⟩
      simp only [warehouseTx]
      rw [if_neg hbe, if_pos trivial]
    | false =>
      by_cases hlen : (find_empty_slots_other_floors g F
          (check_blocking_infloor g F S).length false
          (compare_strategies g 0 (check_blocking_infloor g F S) 15 100 oc) of).length <
          (check_blocking_infloor g F S).length
      · right; right; left
        refine ⟨hbe, rfl, ?_⟩
        simp only [warehouseTx]
        rw [if_neg hbe, if_neg (by simp), if_pos hlen]
      · right; right; right
        refine ⟨check_blocking_infloor g F S,
          find_empty_slots_other_floors g F (check_blocking_infloor g F S).length false
            (compare_strategies g 0 (check_blocking_infloor g F S) 15 100 oc) of,
          relocate g F (check_blocking_infloor g F S)
            (find_empty_slots_other_floors g F (check_blocking_infloor g F S).length false
              (compare_strategies g 0 (check_blocking_infloor g F S) 15 100 oc) of),
          rfl, hbe, rfl, rfl, rfl, ?_⟩
        by_cases hok : (relocate g F (check_blocking_infloor g F S)
            (find_empty_slots_other_floors g F (check_blocking_infloor g F S).length false
              (compare_strategies g 0 (check_blocking_infloor g F S) 15 100 oc) of)).2.2 = true
        · left
          refine ⟨hok, ?_⟩
          simp only [warehouseTx]
          rw [if_neg hbe, if_neg (by simp), if_neg hlen, if_pos hok]
        · right
          refine ⟨by simpa using hok, ?_⟩
          simp only [warehouseTx]
          rw [if_neg hbe, if_neg (by simp), if_neg hlen, if_neg hok]

/-- Master specification of one transaction: the recorded moves are valid from
the initial grid and never touch the target cell; a completed transaction
(direct or done) leaves exactly the target cell set to `newVal`; a cancelled or
infeasible transaction leaves the grid untouched; and on a completed
transaction the restoration sequence is itself valid from the post-mutation
grid. -/
theorem warehouseTx_spec (v : Bool) (g : Grid) (F S : Nat) (c : Bool)
    (oc of : List Nat) (hF : F < floors) (hS : S < slots) :
    ValidSeq g (warehouseTx v g F S c oc of).2.2 ∧
      Avoids (F, S) (warehouseTx v g F S c oc of).2.2 ∧
      ((warehouseTx v g F S c oc of).1.completed = true →
        (warehouseTx v g F S c oc of).2.1 = setCell g F S v) ∧
      (((warehouseTx v g F S c oc of).1 = .cancelled ∨
          (warehouseTx v g F S c oc of).1 = .infeasible) →
        (warehouseTx v g F S c oc of).2.1 = g) ∧
      ((warehouseTx v g F S c oc of).1.completed = true →
        ValidSeq (setCell (applyMoves g (warehouseTx v g F S c oc of).2.2) F S v)
          (revSwap (warehouseTx v g F S c oc of).2.2)) := by
  rcases warehouseTx_cases v g F S c oc of with
    ⟨hbe, heq⟩ | ⟨hbe, hc, heq⟩ | ⟨hbe, hc, heq⟩ |
    ⟨blocking, e, r, hbdef, hbe, hc, hedef, hrdef, hres⟩
  · rw [heq]
    refine ⟨ValidSeq.nil g, ?_, ?_, ?_, ?_⟩
    · intro m hm; cases hm
    · intro _; rfl
    · rintro (h | h) <;> cases h
    · intro _
      exact ValidSeq.nil _
  · rw [heq]
    refine ⟨ValidSeq.nil g, ?_, ?_, ?_, ?_⟩
    · intro m hm; cases hm
    · intro h; cases h
    · intro _; rfl
    · intro h; cases h
  · rw [heq]
    refine ⟨ValidSeq.nil g, ?_, ?_, ?_, ?_⟩
    · intro m hm; cases hm
    · intro h; cases h
    · intro _; rfl
    · intro h; cases h
  · have hbl : ∀ b ∈ blocking,
        b.1 = F + 1 ∧ 1 ≤ b.2 ∧ b.2 ≤ S ∧ g F (b.2 - 1) = true := by
      intro b hb
      rw [hbdef] at hb
      exact check_blocking_props hb
    have hbnd : blocking.Nodup := by
      rw [hbdef]; exact check_blocking_nodup g F S
    have hegood : ∀ x ∈ e, 0 < x.2 → GoodCell g F x := by
      intro x hx hpos
      rw [hedef] at hx
      exact find_empty_good hx hpos
    obtain ⟨rv, re, ra⟩ := relocate_spec hF hS hbl hbnd hegood
    rw [← hrdef] at rv re ra
    rcases hres with ⟨hok, heq⟩ | ⟨hok, heq⟩
    · rw [heq]
      have hrsAvoid : Avoids (F, S) (revSwap r.2.1) := Avoids_revSwap ra
      have hrv := ValidSeq_revSwap rv
      refine ⟨rv, ra, ?_, ?_, ?_⟩
      · intro _
        show applyMoves (setCell r.1 F S v) (revSwap r.2.1) = setCell g F S v
        have hcomm : applyMoves (setCell r.1 F S v) (revSwap r.2.1) =
            setCell (applyMoves r.1 (revSwap r.2.1)) F S v :=
          applyMoves_setCell_comm (revSwap r.2.1) r.1 v hrsAvoid
        rw [hcomm, re, hrv.2]
      · rintro (h | h) <;> cases h
      · intro _
        show ValidSeq (setCell (applyMoves g r.2.1) F S v) (revSwap r.2.1)
        have hvs : ValidSeq (setCell (applyMoves g r.2.1) F S v) (revSwap r.2.1) :=
          ValidSeq_setCell hrsAvoid hrv.1
        exact hvs
    · rw [heq]
      refine ⟨rv, ra, ?_, ?_, ?_⟩
      · intro h; cases h
      · rintro (h | h) <;> cases h
      · intro h; cases h

/-! ## Further helper lemmas -/

theorem occupiedCount_setCell_congr {g1 g2 : Grid} {F S : Nat} (hF : F < floors)
    (hS : S < slots) (hcell : g1 F S = g2 F S)
    (hcount : occupiedCount g1 = occupiedCount g2) (v : Bool) :
    occupiedCount (setCell g1 F S v) = occupiedCount (setCell g2 F S v) := by
  have hmem : (F, S) ∈ occupiedCells g1 ↔ (F, S) ∈ occupiedCells g2 := by
    rw [mem_occupiedCells, mem_occupiedCells]
    simp only
    rw [hcell]
  have hcard : (occupiedCells g1).card = (occupiedCells g2).card := hcount
  cases v
  · unfold occupiedCount
    rw [occupiedCells_setCell_false, occupiedCells_setCell_false]
    by_cases hm : (F, S) ∈ occupiedCells g1
    · rw [Finset.card_erase_of_mem hm, Finset.card_erase_of_mem (hmem.mp hm), hcard]
    · rw [Finset.erase_eq_of_not_mem hm,
        Finset.erase_eq_of_not_mem (fun h => hm (hmem.mpr h))]
      exact hcard
  · unfold occupiedCount
    rw [occupiedCells_setCell_true hF hS, occupiedCells_setCell_true hF hS]
    by_cases hm : (F, S) ∈ occupiedCells g1
    · rw [Finset.insert_eq_self.mpr hm, Finset.insert_eq_self.mpr (hmem.mp hm)]
      exact hcard
    · rw [Finset.card_insert_of_not_mem hm,
        Finset.card_insert_of_not_mem (fun h => hm (hmem.mpr h)), hcard]

theorem get?_isSome_iff {α : Type} {l : List α} {n : Nat} :
    (l.get? n).isSome = true ↔ n < l.length := by
  rw [Option.isSome_iff_ne_none, Ne, List.get?_eq_none]
  omega

theorem pyIndex_isSome {α : Type} (l : List α) (i : Int) :
    (pyIndex l i).isSome = true ↔ -(l.length : Int) ≤ i ∧ i < (l.length : Int) := by
  unfold pyIndex
  split_ifs with h1 h2
  · rw [get?_isSome_iff]
    omega
  · rw [get?_isSome_iff]
    omega
  · simp only [Option.isSome_none, Bool.false_eq_true, false_iff]
    omega

theorem check_blocking_sorted (g : Grid) (F S : Nat) :
    List.Sorted coordLe (check_blocking_infloor g F S) := by
  unfold check_blocking_infloor List.Sorted
  rw [List.pairwise_filterMap]
  refine List.Pairwise.imp ?_ (List.pairwise_lt_range S)
  intro a b hab c hc d hd
  by_cases h1 : g F a = true
  · rw [if_pos h1] at hc
    by_cases h2 : g F b = true
    · rw [if_pos h2] at hd
      have e1 := Option.mem_some_iff.mp hc
      have e2 := Option.mem_some_iff.mp hd
      rw [← e1, ← e2]
      right
      exact ⟨rfl, by omega⟩
    · rw [if_neg h2] at hd; cases hd
  · rw [if_neg h1] at hc; cases hc

/-! ## Claim theorems -/

/-- C1: for every grid and every in-bounds `insert(f,s)` request whose
transaction runs to completion (not cancelled, not infeasible), the final grid
equals the initial grid except that cell `(f,s)` is occupied: every pallet
relocated during the consolidation and cross-floor passes is returned by the
reverse-order swapped replay, and no other cell changes. -/
theorem C1_insert_complete_sets_only_target (g : Grid) (F S : Nat) (cancel : Bool)
    (oc of : List Nat) (hF : F < floors) (hS : S < slots)
    (hrun : (adding g F S cancel oc of).1.completed = true) :
    (adding g F S cancel oc of).2.1 = setCell g F S true ∧
      (adding g F S cancel oc of).2.1 F S = true ∧
      ∀ f s, ¬(f = F ∧ s = S) → (adding g F S cancel oc of).2.1 f s = g f s := by
  obtain ⟨-, -, hdone, -, -⟩ := warehouseTx_spec true g F S cancel oc of hF hS
  have h : (adding g F S cancel oc of).2.1 = setCell g F S true := hdone hrun
  refine ⟨h, ?_, ?_⟩
  · rw [h]
    simp [setCell]
  · intro f s hne
    rw [h]
    simp only [setCell]
    rw [if_neg hne]

set_option maxRecDepth 8000 in
/-- Witness for C1 at spec Scenario B: floor 1 has slots 1 and 2 occupied and
`insert(floor 1, slot 3)` (0-based `(0,2)`) completes with both blocking
pallets relocated and restored. -/
theorem C1_insert_complete_sets_only_target_witness :
    ((0 : Nat) < floors ∧ (2 : Nat) < slots ∧
      (adding gScenarioB 0 2 false [] [0, 1]).1.completed = true) ∧
      ((adding gScenarioB 0 2 false [] [0, 1]).2.1 = setCell gScenarioB 0 2 true ∧
        (adding gScenarioB 0 2 false [] [0, 1]).2.1 0 2 = true ∧
        ∀ f s, ¬(f = 0 ∧ s = 2) →
          (adding gScenarioB 0 2 false [] [0, 1]).2.1 f s = gScenarioB f s) :=
  ⟨⟨by decide, by decide, by decide⟩,
    C1_insert_complete_sets_only_target gScenarioB 0 2 false [] [0, 1]
      (by decide) (by decide) (by decide)⟩

/-- C2 counterexample: on the grid whose only occupied cell is `(0,0)`,
`insert(0,0)` (already occupied) runs to completion, the immediately following
`remove(0,0)` runs to completion, yet the final grid differs from the initial
one — so insert-then-remove is not the identity for every grid. -/
theorem C2_roundtrip_fails_on_occupied_target :
    (adding gSingle 0 0 false [] []).1.completed = true ∧
      (removing ((adding gSingle 0 0 false [] []).2.1) 0 0 false [] []).1.completed
        = true ∧
      (removing ((adding gSingle 0 0 false [] []).2.1) 0 0 false [] []).2.1 ≠
        gSingle := by
  refine ⟨by decide, by decide, ?_⟩
  intro h
  have h0 := congrFun (congrFun h 0) 0
  have h1 : (removing ((adding gSingle 0 0 false [] []).2.1) 0 0 false [] []).2.1 0 0
      = false := by decide
  have h2 : gSingle 0 0 = true := by decide
  rw [h1, h2] at h0
  cases h0

/-- C2 amended: for any grid `G` whose target cell `(f,s)` is initially free,
a feasible in-bounds `insert(f,s)` that runs to completion, immediately
followed by a `remove(f,s)` that also runs to completion, yields exactly `G`
again. -/
theorem C2_insert_remove_roundtrip_on_free_target (g : Grid) (F S : Nat)
    (c1 c2 : Bool) (oc1 of1 oc2 of2 : List Nat) (hF : F < floors) (hS : S < slots)
    (hfree : g F S = false)
    (h1 : (adding g F S c1 oc1 of1).1.completed = true)
    (h2 : (removing ((adding g F S c1 oc1 of1).2.1) F S c2 oc2 of2).1.completed
      = true) :
    (removing ((adding g F S c1 oc1 of1).2.1) F S c2 oc2 of2).2.1 = g := by
  obtain ⟨-, -, hd1, -, -⟩ := warehouseTx_spec true g F S c1 oc1 of1 hF hS
  obtain ⟨-, -, hd2, -, -⟩ :=
    warehouseTx_spec false ((adding g F S c1 oc1 of1).2.1) F S c2 oc2 of2 hF hS
  have e2 : (removing ((adding g F S c1 oc1 of1).2.1) F S c2 oc2 of2).2.1 =
      setCell ((adding g F S c1 oc1 of1).2.1) F S false := hd2 h2
  have e1 : (adding g F S c1 oc1 of1).2.1 = setCell g F S true := hd1 h1
  rw [e2, e1]
  funext f s
  simp only [setCell]
  by_cases hfs : f = F ∧ s = S
  · rw [if_pos hfs]
    obtain ⟨rfl, rfl⟩ := hfs
    exact hfree.symm
  · rw [if_neg hfs, if_neg hfs]

/-- Witness for C2 amended: on the empty grid, `insert(0,0)` then `remove(0,0)`
both complete directly and restore the empty grid. -/
theorem C2_insert_remove_roundtrip_on_free_target_witness :
    ((0 : Nat) < floors ∧ (0 : Nat) < slots ∧ gEmpty 0 0 = false ∧
      (adding gEmpty 0 0 false [] []).1.completed = true ∧
      (removing ((adding gEmpty 0 0 false [] []).2.1) 0 0 false [] []).1.completed
        = true) ∧
      (removing ((adding gEmpty 0 0 false [] []).2.1) 0 0 false [] []).2.1 = gEmpty :=
  ⟨⟨by decide, by decide, by decide, by decide, by decide⟩,
    C2_insert_remove_roundtrip_on_free_target gEmpty 0 0 false false [] [] [] []
      (by decide) (by decide) (by decide) (by decide) (by decide)⟩

/-- C3: throughout every insert/remove transaction (each cell holds `0` or `1`
pallets by the boolean-cell representation), every recorded move is valid at
its application time — origin occupied and destination free — so the total
occupied count is unchanged by the whole consolidation/cross-floor plan; on a
completed transaction the restoration replay is likewise valid from the
post-mutation grid and preserves the count, hence the count changes only at
the single Direct/Executing mutation step; and every individually valid move
preserves the occupied count. -/
theorem C3_transaction_moves_valid_and_count_preserving (v : Bool) (g : Grid)
    (F S : Nat) (c : Bool) (oc of : List Nat) (hF : F < floors) (hS : S < slots) :
    ValidSeq g (warehouseTx v g F S c oc of).2.2 ∧
      occupiedCount (applyMoves g (warehouseTx v g F S c oc of).2.2) =
        occupiedCount g ∧
      ((warehouseTx v g F S c oc of).1.completed = true →
        ValidSeq (setCell (applyMoves g (warehouseTx v g F S c oc of).2.2) F S v)
            (revSwap (warehouseTx v g F S c oc of).2.2) ∧
          occupiedCount (warehouseTx v g F S c oc of).2.1 =
            occupiedCount
              (setCell (applyMoves g (warehouseTx v g F S c oc of).2.2) F S v)) ∧
      ∀ (g' : Grid) (m : Move), Valid g' m →
        occupiedCount (animate_move g' m) = occupiedCount g' := by
  obtain ⟨hv, ha, hdone, -, hrest⟩ := warehouseTx_spec v g F S c oc of hF hS
  refine ⟨hv, occupiedCount_applyMoves hv, ?_, ?_⟩
  · intro hc
    refine ⟨hrest hc, ?_⟩
    rw [hdone hc]
    refine occupiedCount_setCell_congr hF hS ?_ ?_ v
    · exact (applyMoves_ne _ g ha).symm
    · exact (occupiedCount_applyMoves hv).symm
  · intro g' m hm
    exact occupiedCount_animate_move hm

set_option maxRecDepth 8000 in
/-- Witness for C3 at spec Scenario B. -/
theorem C3_transaction_moves_valid_and_count_preserving_witness :
    ((0 : Nat) < floors ∧ (2 : Nat) < slots) ∧
      (ValidSeq gScenarioB (warehouseTx true gScenarioB 0 2 false [] [0, 1]).2.2 ∧
        occupiedCount
            (applyMoves gScenarioB
              (warehouseTx true gScenarioB 0 2 false [] [0, 1]).2.2) =
          occupiedCount gScenarioB ∧
        ((warehouseTx true gScenarioB 0 2 false [] [0, 1]).1.completed = true →
          ValidSeq
              (setCell
                (applyMoves gScenarioB
                  (warehouseTx true gScenarioB 0 2 false [] [0, 1]).2.2) 0 2 true)
              (revSwap (warehouseTx true gScenarioB 0 2 false [] [0, 1]).2.2) ∧
            occupiedCount (warehouseTx true gScenarioB 0 2 false [] [0, 1]).2.1 =
              occupiedCount
                (setCell
                  (applyMoves gScenarioB
                    (warehouseTx true gScenarioB 0 2 false [] [0, 1]).2.2) 0 2
                  true)) ∧
        ∀ (g' : Grid) (m : Move), Valid g' m →
          occupiedCount (animate_move g' m) = occupiedCount g') :=
  ⟨⟨by decide, by decide⟩,
    C3_transaction_moves_valid_and_count_preserving true gScenarioB 0 2 false []
      [0, 1] (by decide) (by decide)⟩

/-- C4 counterexample: with `floor_time = 100`, `slot_time = 15` and reference
origin `(1, 1)` (current floor 0), the optimizing search's objective charges
250 for candidate `(2, 2)`, while the claimed cost model
`2·ft·|Δfloor| + st·|Δslot| + 10` gives 225 — the search objective does not
use the same cost model as the greedy comparison. -/
theorem C4_objective_cost_model_differs :
    objectiveContribution 0 100 15 (2, 2) ≠ specCost 100 15 10 (1, 1) (2, 2) ∧
      objectiveContribution 0 100 15 (2, 2) = 250 ∧
      specCost 100 15 10 (1, 1) (2, 2) = 225 :=
  ⟨by decide, by decide, by decide⟩

/-- C4 amended: the greedy comparison's pairwise cost equals the spec formula
`2·floor_time·|Δfloor| + slot_time·|Δslot| + handling` with handling 10, but
the optimizing search's objective charges
`2·(floor_time·|Δfloor| + slot_time·|Δslot| + 10)` per candidate from the
reference origin `(current_floor+1, 1)` — the spec formula plus the extra
term `slot_time·|Δslot| + 10`, so the two cost models coincide only where
that extra term vanishes. -/
theorem C4_cost_model_relation (ft st : ℤ) (cf : Nat) (a b x : Coord) :
    pairCost ft st a b = specCost ft st 10 a b ∧
      objectiveContribution cf ft st x =
        specCost ft st 10 (cf + 1, 1) x + ((natDist 1 x.2 : ℤ) * st + 10) := by
  unfold pairCost specCost objectiveContribution
  constructor
  · ring
  · simp only
    ring

/-- C5: `compare_strategies` runs the Slot Finder under both strategies with
`needed = len(blocking)`, truncates both results to `needed` before costing,
and returns the optimizing strategy exactly when its computed total cost is
strictly below the greedy one; on exact ties (and whenever optuna is not
strictly cheaper) it returns the greedy strategy, so the optimizing strategy
is never selected when its computed cost exceeds the greedy cost. -/
theorem C5_compare_selects_strictly_cheaper (g : Grid) (cf : Nat)
    (blocking : List Coord) (st ft : ℤ) (oc : List Nat) :
    (compare_strategies g cf blocking st ft oc = .optuna ↔
      total_cost ft st
          ((find_empty_slots_other_floors g cf blocking.length false .optuna oc).take
            blocking.length) blocking <
        total_cost ft st
          ((find_empty_slots_other_floors g cf blocking.length false .normal []).take
            blocking.length) blocking) ∧
      (total_cost ft st
          ((find_empty_slots_other_floors g cf blocking.length false .normal []).take
            blocking.length) blocking =
        total_cost ft st
          ((find_empty_slots_other_floors g cf blocking.length false .optuna oc).take
            blocking.length) blocking →
        compare_strategies g cf blocking st ft oc = .normal) := by
  simp only [compare_strategies]
  set na := total_cost ft st
    ((find_empty_slots_other_floors g cf blocking.length false .normal []).take
      blocking.length) blocking with hna
  set ob := total_cost ft st
    ((find_empty_slots_other_floors g cf blocking.length false .optuna oc).take
      blocking.length) blocking with hob
  constructor
  · constructor
    · intro h
      by_cases h1 : na < ob
      · rw [if_pos h1] at h; cases h
      · rw [if_neg h1] at h
        by_cases h2 : ob < na
        · exact h2
        · rw [if_neg h2] at h; cases h
    · intro h
      rw [if_neg (by omega), if_pos h]
  · intro h
    rw [if_neg (by omega), if_neg (by omega)]

/-- C6 counterexample: `total_cost` pairs the sequences in the order given —
for assignments `[(2,5),(2,1)]` against blocking `[(1,1),(1,5)]` with
`floor_time = 100`, `slot_time = 15` it reports 540, while sorting both
ascending before pairing, as the claim states, yields 420. -/
theorem C6_total_cost_ignores_sorting :
    total_cost 100 15 [(2, 5), (2, 1)] [(1, 1), (1, 5)] ≠
        total_cost_spec 100 15 [(2, 5), (2, 1)] [(1, 1), (1, 5)] ∧
      total_cost 100 15 [(2, 5), (2, 1)] [(1, 1), (1, 5)] = 540 ∧
      total_cost_spec 100 15 [(2, 5), (2, 1)] [(1, 1), (1, 5)] = 420 :=
  ⟨by decide, by decide, by decide⟩

/-- C6 amended: `total_cost` zips the blocking sequence with the assignment
sequence positionally in the order given, without sorting either; it agrees
with the sort-before-pairing definition precisely on already-ascending
inputs, and the blocking detector's output is always ascending. -/
theorem C6_total_cost_pairs_in_given_order (ft st : ℤ) (asg blk : List Coord)
    (h1 : sortCoords asg = asg) (h2 : sortCoords blk = blk) :
    total_cost ft st asg blk = total_cost_spec ft st asg blk ∧
      ∀ (g : Grid) (F S : Nat),
        sortCoords (check_blocking_infloor g F S) = check_blocking_infloor g F S := by
  constructor
  · unfold total_cost total_cost_spec
    rw [h1, h2]
  · intro g F S
    exact List.Sorted.insertionSort_eq (check_blocking_sorted g F S)

/-- Witness for C6 amended at concrete sorted inputs. -/
theorem C6_total_cost_pairs_in_given_order_witness :
    (sortCoords [(2, 1), (2, 5)] = [(2, 1), (2, 5)] ∧
      sortCoords [(1, 1), (1, 5)] = [(1, 1), (1, 5)]) ∧
      (total_cost 100 15 [(2, 1), (2, 5)] [(1, 1), (1, 5)] =
          total_cost_spec 100 15 [(2, 1), (2, 5)] [(1, 1), (1, 5)] ∧
        ∀ (g : Grid) (F S : Nat),
          sortCoords (check_blocking_infloor g F S) =
            check_blocking_infloor g F S) :=
  ⟨⟨by decide, by decide⟩,
    C6_total_cost_pairs_in_given_order 100 15 [(2, 1), (2, 5)] [(1, 1), (1, 5)]
      (by decide) (by decide)⟩

/-- C7 counterexample: `insert` at the already-occupied cell `(0,0)` of
`gSingle` returns the direct-success outcome, and `remove` at the already-free
cell `(0,0)` of the empty grid does the same — both silently succeed instead
of failing with an `InvalidMove`/contract error. -/
theorem C7_silent_success_on_occupied_insert :
    gSingle 0 0 = true ∧ (adding gSingle 0 0 false [] []).1 = .direct ∧
      gEmpty 0 0 = false ∧ (removing gEmpty 0 0 false [] []).1 = .direct :=
  ⟨by decide, by decide, by decide, by decide⟩

/-- C7 amended: with no blocking pallets, `insert` on an already-occupied
coordinate and `remove` on an already-free coordinate both complete through
the direct-mutation path and leave the grid unchanged (the cell write is
idempotent); no error outcome is produced. -/
theorem C7_occupied_insert_and_free_remove_succeed (g : Grid) (F S : Nat)
    (c : Bool) (oc of : List Nat) (hbe : check_blocking_infloor g F S = []) :
    (g F S = true →
      (adding g F S c oc of).1 = .direct ∧ (adding g F S c oc of).2.1 = g) ∧
      (g F S = false →
        (removing g F S c oc of).1 = .direct ∧ (removing g F S c oc of).2.1 = g) := by
  constructor
  · intro hv
    rcases warehouseTx_cases true g F S c oc of with
      ⟨-, heq⟩ | ⟨hne, -, -⟩ | ⟨hne, -, -⟩ | ⟨bl, e, r, hbdef, hne, -, -, -, -⟩
    · have heq' : adding g F S c oc of = (.direct, setCell g F S true, []) := heq
      rw [heq']
      refine ⟨rfl, ?_⟩
      funext f s
      simp only [setCell]
      by_cases hfs : f = F ∧ s = S
      · rw [if_pos hfs]
        obtain ⟨rfl, rfl⟩ := hfs
        exact hv.symm
      · rw [if_neg hfs]
    · exact absurd hbe hne
    · exact absurd hbe hne
    · exact absurd (hbdef.trans hbe) hne
  · intro hv
    rcases warehouseTx_cases false g F S c oc of with
      ⟨-, heq⟩ | ⟨hne, -, -⟩ | ⟨hne, -, -⟩ | ⟨bl, e, r, hbdef, hne, -, -, -, -⟩
    · have heq' : removing g F S c oc of = (.direct, setCell g F S false, []) := heq
      rw [heq']
      refine ⟨rfl, ?_⟩
      funext f s
      simp only [setCell]
      by_cases hfs : f = F ∧ s = S
      · rw [if_pos hfs]
        obtain ⟨rfl, rfl⟩ := hfs
        exact hv.symm
      · rw [if_neg hfs]
    · exact absurd hbe hne
    · exact absurd hbe hne
    · exact absurd (hbdef.trans hbe) hne

/-- Witness for C7 amended at the concrete grids. -/
theorem C7_occupied_insert_and_free_remove_succeed_witness :
    check_blocking_infloor gSingle 0 0 = [] ∧
      ((gSingle 0 0 = true →
        (adding gSingle 0 0 false [] []).1 = .direct ∧
          (adding gSingle 0 0 false [] []).2.1 = gSingle) ∧
        (gSingle 0 0 = false →
          (removing gSingle 0 0 false [] []).1 = .direct ∧
            (removing gSingle 0 0 false [] []).2.1 = gSingle)) :=
  ⟨by decide,
    C7_occupied_insert_and_free_remove_succeed gSingle 0 0 false [] [] (by decide)⟩

/-- C8: whenever an insert/remove transaction aborts with the pre-execution
Infeasible outcome (fewer destination slots found than blocking pallets,
detected before any move is executed), the returned grid is exactly the grid
before the call — no cell differs. -/
theorem C8_infeasible_grid_unchanged (v : Bool) (g : Grid) (F S : Nat) (c : Bool)
    (oc of : List Nat) (h : (warehouseTx v g F S c oc of).1 = .infeasible) :
    (warehouseTx v g F S c oc of).2.1 = g := by
  rcases warehouseTx_cases v g F S c oc of with
    ⟨-, heq⟩ | ⟨-, -, heq⟩ | ⟨-, -, heq⟩ | ⟨bl, e, r, -, -, -, -, -, hres⟩
  · rw [heq] at h; cases h
  · rw [heq] at h; cases h
  · rw [heq]
  · rcases hres with ⟨-, heq⟩ | ⟨-, heq⟩ <;> (rw [heq] at h; cases h)

set_option maxRecDepth 8000 in
/-- Witness for C8: with every other floor fully occupied, `insert(0,2)` on
the crowded grid is infeasible and leaves the grid untouched. -/
theorem C8_infeasible_grid_unchanged_witness :
    (warehouseTx true gCrowded 0 2 false [] []).1 = .infeasible ∧
      (warehouseTx true gCrowded 0 2 false [] []).2.1 = gCrowded :=
  ⟨by decide,
    C8_infeasible_grid_unchanged true gCrowded 0 2 false [] [] (by decide)⟩

set_option maxRecDepth 8000 in
/-- C10 counterexample: on the fixed grid `gTwo` with the same compare oracle,
the requests `(0,1)` and `(4,3)` have blocking sets of equal length 1, yet the
first completed transaction selects the greedy strategy and the second the
optimizing one — the chosen strategy does depend on the request's floor (the
comparison costs are taken against the blocking coordinates even though the
finder itself always runs with current floor 0). -/
theorem C10_strategy_depends_on_request_floor :
    (check_blocking_infloor gTwo 0 1).length =
        (check_blocking_infloor gTwo 4 3).length ∧
      (adding gTwo 0 1 false [18] [0]).1 = .done .normal ∧
      (adding gTwo 4 3 false [18] [0]).1 = .done .optuna :=
  ⟨by decide, by decide, by decide⟩

/-- C10 amended: the strategy comparison inside `adding`/`removing` is always
invoked with current floor 0 rather than the request's floor — the strategy
reported by a completed transaction is exactly
`compare_strategies g 0 blocking 15 100`, so it depends on the request only
through the grid and the blocking set (whose coordinates still carry the
request floor, so equal blocking lengths alone do not fix the choice). -/
theorem C10_done_strategy_from_floor_zero (v : Bool) (g : Grid) (F S : Nat)
    (c : Bool) (oc of : List Nat) (str : Strategy)
    (h : (warehouseTx v g F S c oc of).1 = .done str) :
    str = compare_strategies g 0 (check_blocking_infloor g F S) 15 100 oc := by
  rcases warehouseTx_cases v g F S c oc of with
    ⟨-, heq⟩ | ⟨-, -, heq⟩ | ⟨-, -, heq⟩ | ⟨bl, e, r, hbdef, -, -, -, -, hres⟩
  · rw [heq] at h; cases h
  · rw [heq] at h; cases h
  · rw [heq] at h; cases h
  · rcases hres with ⟨-, heq⟩ | ⟨-, heq⟩
    · rw [heq] at h
      have h' : Status.done (compare_strategies g 0 bl 15 100 oc) = .done str := h
      have := Status.done.inj h'
      rw [← this, hbdef]
    · rw [heq] at h; cases h

set_option maxRecDepth 8000 in
/-- Witness for C10 amended: the completed Scenario-B insert reports exactly
the floor-0 comparison's strategy. -/
theorem C10_done_strategy_from_floor_zero_witness :
    (warehouseTx true gScenarioB 0 2 false [] [0, 1]).1 =
        .done (compare_strategies gScenarioB 0
          (check_blocking_infloor gScenarioB 0 2) 15 100 []) ∧
      compare_strategies gScenarioB 0 (check_blocking_infloor gScenarioB 0 2) 15 100
          [] =
        compare_strategies gScenarioB 0 (check_blocking_infloor gScenarioB 0 2) 15
          100 [] :=
  ⟨by decide,
    C10_done_strategy_from_floor_zero true gScenarioB 0 2 false [] [0, 1]
      (compare_strategies gScenarioB 0 (check_blocking_infloor gScenarioB 0 2) 15
        100 []) (by decide)⟩

/-- C9 counterexample: the raw list access `warehouse[-1][0]` at the
out-of-bounds coordinate `(-1, 0)` of the startup grid silently succeeds
(Python's negative indices wrap around), while `warehouse[8][0]` raises a bare
`IndexError` (`none`) — grid access is not bounds-checked with an
`InvalidCoordinate` failure for every out-of-range input. -/
theorem C9_negative_index_access_succeeds :
    pyGetCell warehouse0 (-1) 0 = some false ∧ pyGetCell warehouse0 8 0 = none :=
  ⟨by decide, by decide⟩

theorem pyIndex_mem {α : Type} {l : List α} {i : Int} {a : α}
    (h : pyIndex l i = some a) : a ∈ l := by
  unfold pyIndex at h
  split_ifs at h
  · exact List.get?_mem h
  · exact List.get?_mem h

/-- C9 amended: grid access is raw Python list indexing with no bounds guard:
on a well-formed `floors × slots` grid, `warehouse[f][s]` succeeds exactly
when `-floors ≤ f < floors` and `-slots ≤ s < slots` (with negative indices
wrapping around); every other input fails with a bare `IndexError` (modelled
as `none`), and no `InvalidCoordinate` check exists anywhere. -/
theorem C9_py_access_succeeds_iff (w : List (List Bool)) (f s : Int)
    (hw : w.length = floors) (hrow : ∀ row ∈ w, row.length = slots) :
    (pyGetCell w f s).isSome = true ↔
      (-(floors : Int) ≤ f ∧ f < (floors : Int)) ∧
        (-(slots : Int) ≤ s ∧ s < (slots : Int)) := by
  unfold pyGetCell
  cases hidx : pyIndex w f with
  | none =>
    have hnf : ¬(-(w.length : Int) ≤ f ∧ f < (w.length : Int)) := by
      intro hcon
      have hsm := (pyIndex_isSome w f).mpr hcon
      rw [hidx] at hsm
      cases hsm
    rw [hw] at hnf
    simp only [Option.none_bind, Option.isSome_none, Bool.false_eq_true, false_iff]
    intro hcon
    exact hnf hcon.1
  | some row =>
    have hrl : row.length = slots := hrow row (pyIndex_mem hidx)
    have hf : -(floors : Int) ≤ f ∧ f < (floors : Int) := by
      have hsm := (pyIndex_isSome w f).mp (by rw [hidx]; rfl)
      rw [hw] at hsm
      exact hsm
    simp only [Option.some_bind]
    rw [pyIndex_isSome, hrl]
    constructor
    · intro hs
      exact ⟨hf, hs⟩
    · intro hcon
      exact hcon.2

/-- Witness for C9 amended on the startup grid at coordinate `(-8, 17)`. -/
theorem C9_py_access_succeeds_iff_witness :
    (warehouse0.length = floors ∧ ∀ row ∈ warehouse0, row.length = slots) ∧
      ((pyGetCell warehouse0 (-8) 17).isSome = true ↔
        (-(floors : Int) ≤ (-8 : Int) ∧ (-8 : Int) < (floors : Int)) ∧
          (-(slots : Int) ≤ (17 : Int) ∧ (17 : Int) < (slots : Int))) :=
  ⟨⟨by decide, by decide⟩,
    C9_py_access_succeeds_iff warehouse0 (-8) 17 (by decide) (by decide)⟩
